import Mathlib

/-!
# Pairwise genotype comparisons (`src/pairwise_comps.cpp`)

A shallow embedding of the two exported routines of `pairwise_comps.cpp`:

* `comp_ind_pairwise`: every row of a source matrix against one row of a target matrix, adding up
  table values over the loci that are non-missing on both sides;
* `pairwise_geno_id`: all pairs of rows of one matrix, counting mismatching loci and leaving a pair
  as soon as the count passes `max_miss`.

Conventions of the embedding.

* An `IntegerMatrix` is the column-major storage of an R integer matrix; its length is
  `nrow * ncol` by construction.  The subscript `M(i, j)` of the source is unchecked: it addresses
  storage cell `i + nrow * j`.  A subscript that leaves the storage is undefined behaviour in the
  source and is the outcome `Fault.undefinedBehaviour` here.  The same holds for the unchecked
  subscripts of `values`, `nGenos` and `Starts`.
* C `int` values are integers (`Int`); loop counters are natural numbers.  The lookup offset
  `Starts[j] + nGenos[j] * sG + tG` is computed as the compiled source computes it, in 32-bit
  two's-complement `int` arithmetic: every product and sum is reduced by `wrapInt`, and the
  result is widened to the index of `values`.  The counters `n`, `mm` and the indices `i + 1`,
  `j + 1` are bounded by the dimensions and cannot leave `int`; the row index `t - 1` is exact,
  it leaves `int` only at `t = -2^31`, where the wrapped index `2^31 - 1` is not a row of the
  target either.
* `double` is an arbitrary carrier `V` with a zero and an addition about which nothing is assumed
  (in particular not associativity), so that every statement about `value` holds for floating
  point addition performed in the order of the source.
* A data frame is the list of its rows.
* The number of passes of the inner loop of `pairwise_geno_id` is not a value of the source; it
  is read off `pairwise_geno_id_visits`, the same loops with a counter that is incremented at
  every pass and that does not change the result.
-/

namespace PairwiseComps

/-! ## Data model -/

/-- Error kinds of the specification's error-handling section. The source has no statement that
signals any of them. -/
inductive ErrorKind where
  | DimensionMismatch
  | IndexOutOfRange
  | InvalidArgument
  deriving DecidableEq, Repr

/-- Ways in which a call can end without a result table. -/
inductive Fault where
  /-- An error signalled to the caller. -/
  | raised (e : ErrorKind)
  /-- An unchecked subscript addressed a cell outside the storage. -/
  | undefinedBehaviour
  deriving DecidableEq, Repr

deriving instance DecidableEq for Except

/-- An R integer matrix: dimensions and column-major storage. -/
structure IntegerMatrix where
  nrow : Nat
  ncol : Nat
  data : List Int
  dim_ok : data.length = nrow * ncol

/-- Unchecked subscript of a vector, `v[k]`. -/
def readVec {α : Type} (v : List α) (k : Int) : Except Fault α :=
  if 0 ≤ k then
    match v[k.toNat]? with
    | some a => Except.ok a
    | none => Except.error Fault.undefinedBehaviour
  else Except.error Fault.undefinedBehaviour

/-- Value of a 32-bit two's-complement `int` computation whose exact result is `x`: the
representative of `x` modulo `2^32` in `[-2^31, 2^31)`. -/
def wrapInt (x : Int) : Int :=
  (x + 2147483648) % 4294967296 - 2147483648

/-- Unchecked subscript of a matrix, `M(i, j)`: storage cell `i + nrow * j`. -/
def IntegerMatrix.cell (M : IntegerMatrix) (i j : Int) : Except Fault Int :=
  readVec M.data (i + (M.nrow : Int) * j)

/-- One row of the data frame returned by `comp_ind_pairwise`. -/
structure IndRecord (V : Type) where
  ind : Int
  value : V
  num_loc : Int
  deriving DecidableEq, Repr

/-- One row of the data frame returned by `pairwise_geno_id`. -/
structure PairRecord where
  ind1 : Int
  ind2 : Int
  num_mismatch : Int
  num_loc : Int
  deriving DecidableEq, Repr

/-! ## `comp_ind_pairwise` -/

section CompInd

variable {V : Type} [Zero V] [Add V]

/-- Body of the locus loop of `comp_ind_pairwise` (lines 42-47) for source row `i` and locus `j`,
acting on the pair `(sum, n)`. The offset `Starts[j] + nGenos[j] * sG + tG` is an `int`
expression: the product and the two sums are 32-bit operations. -/
def compLocus (S T : IntegerMatrix) (t : Int) (values : List V) (nGenos Starts : List Int)
    (i : Nat) (acc : V × Int) (j : Nat) : Except Fault (V × Int) := do
  let tG ← T.cell (t - 1) j
  let sG ← S.cell i j
  if tG ≥ 0 ∧ sG ≥ 0 then
    let st ← readVec Starts j
    let ng ← readVec nGenos j
    let v ← readVec values (wrapInt (wrapInt (st + wrapInt (ng * sG)) + tG))
    pure (acc.1 + v, acc.2 + 1)
  else
    pure acc

/-- Body of the row loop of `comp_ind_pairwise` (lines 39-51) for source row `i`: the locus loop
from `sum = 0.0`, `n = 0`, then `(i + 1, sum, n)` is stored at position `i` of the three result
vectors; `out` holds the rows stored so far, positions `0, ..., i - 1`. -/
def compRow (S T : IntegerMatrix) (t : Int) (values : List V) (nGenos Starts : List Int)
    (out : List (IndRecord V)) (i : Nat) : Except Fault (List (IndRecord V)) := do
  let r ← (List.range S.ncol).foldlM (compLocus S T t values nGenos Starts i) ((0 : V), (0 : Int))
  pure (out ++ [{ ind := (i : Int) + 1, value := r.1, num_loc := r.2 }])

/-- The routine `comp_ind_pairwise(S, T, t, values, nGenos, Starts)`. -/
def comp_ind_pairwise (S T : IntegerMatrix) (t : Int) (values : List V) (nGenos Starts : List Int) :
    Except Fault (List (IndRecord V)) :=
  (List.range S.nrow).foldlM (compRow S T t values nGenos Starts) []

end CompInd

/-! ## `pairwise_geno_id` -/

/-- Outcome of the locus loop for one pair: the counters `n`, `mm` and the flag `bailed`. -/
structure ScanState where
  n : Int
  mm : Int
  bailed : Bool
  deriving DecidableEq, Repr

/-- The locus loop of `pairwise_geno_id` (lines 101-112) for rows `i`, `j` over the remaining
loci, with `break` as soon as `mm > max_miss`. -/
def scanLoci (S : IntegerMatrix) (max_miss : Int) (i j : Nat) :
    List Nat → Int → Int → Except Fault ScanState
  | [], n, mm => pure { n := n, mm := mm, bailed := false }
  | l :: ls, n, mm => do
    let G1 ← S.cell i l
    let G2 ← S.cell j l
    let n1 := if G1 ≥ 0 ∧ G2 ≥ 0 then n + 1 else n
    let mm1 := if G1 ≥ 0 ∧ G2 ≥ 0 then mm + (if G1 ≠ G2 then 1 else 0) else mm
    if mm1 > max_miss then
      pure { n := n1, mm := mm1, bailed := true }
    else
      scanLoci S max_miss i j ls n1 mm1

/-- Body of the loop over `j` (lines 98-118): scan the pair `(i, j)` from `mm = 0`, `n = 0` and
push its row unless the scan bailed. -/
def scanPair (S : IntegerMatrix) (max_miss : Int) (i : Nat) (out : List PairRecord) (j : Nat) :
    Except Fault (List PairRecord) := do
  let s ← scanLoci S max_miss i j (List.range S.ncol) 0 0
  if s.bailed = false then
    pure (out ++ [{ ind1 := (i : Int) + 1, ind2 := (j : Int) + 1, num_mismatch := s.mm,
                    num_loc := s.n }])
  else
    pure out

/-- Body of the loop over `i` (lines 97-119): `j` runs over `i + 1, ..., nS - 1`. -/
def scanRow (S : IntegerMatrix) (max_miss : Int) (out : List PairRecord) (i : Nat) :
    Except Fault (List PairRecord) :=
  (List.range' (i + 1) (S.nrow - (i + 1))).foldlM (scanPair S max_miss i) out

/-- The routine `pairwise_geno_id(S, max_miss)`. -/
def pairwise_geno_id (S : IntegerMatrix) (max_miss : Int) : Except Fault (List PairRecord) :=
  (List.range S.nrow).foldlM (scanRow S max_miss) []

/-! ## Reference definitions -/

/-- Entry `(i, j)` of a matrix, for subscripts inside its dimensions. -/
def IntegerMatrix.entry (M : IntegerMatrix) (i j : Nat) : Int :=
  M.data.getD (i + M.nrow * j) 0

/-- The loci of `ls` at which rows `i` and `j` of `S` are both non-missing. -/
def presentLoci (S : IntegerMatrix) (i j : Nat) (ls : List Nat) : List Nat :=
  ls.filter (fun l => decide (0 ≤ S.entry i l ∧ 0 ≤ S.entry j l))

/-- The loci of `ls` at which rows `i` and `j` of `S` are both non-missing and differ. -/
def mismatchLoci (S : IntegerMatrix) (i j : Nat) (ls : List Nat) : List Nat :=
  ls.filter (fun l => decide ((0 ≤ S.entry i l ∧ 0 ≤ S.entry j l) ∧ S.entry i l ≠ S.entry j l))

/-- Full-scan count of the loci, over all columns, at which both rows are non-missing. -/
def nonMissingCount (S : IntegerMatrix) (i j : Nat) : Int :=
  ((presentLoci S i j (List.range S.ncol)).length : Int)

/-- Full-scan count of the loci, over all columns, at which both rows are non-missing and
differ. -/
def mismatchCount (S : IntegerMatrix) (i j : Nat) : Int :=
  ((mismatchLoci S i j (List.range S.ncol)).length : Int)

/-- The row pairs `(i, j)`, `i < j < n`, in the order of the nested loops. -/
def rowPairs (n : Nat) : List (Nat × Nat) :=
  (List.range n).flatMap (fun i => (List.range' (i + 1) (n - (i + 1))).map (fun j => (i, j)))

/-- The record of the pair `(i, j)` with the counts of the full scan. -/
def fullRecord (S : IntegerMatrix) (p : Nat × Nat) : PairRecord :=
  { ind1 := (p.1 : Int) + 1, ind2 := (p.2 : Int) + 1,
    num_mismatch := mismatchCount S p.1 p.2, num_loc := nonMissingCount S p.1 p.2 }

/-- Unpruned scan of the specification: every pair is scanned over all loci, and the records are
filtered afterwards by `num_mismatch ≤ max_miss`. -/
def unprunedScan (S : IntegerMatrix) (max_miss : Int) : List PairRecord :=
  ((rowPairs S.nrow).map (fullRecord S)).filter (fun r => decide (r.num_mismatch ≤ max_miss))

/-- What the loop body for the pair `(i, j)` pushes: its record when the locus loop ran through
all loci, nothing when it bailed (or faulted). -/
def pushed (S : IntegerMatrix) (max_miss : Int) (p : Nat × Nat) : Option PairRecord :=
  match scanLoci S max_miss p.1 p.2 (List.range S.ncol) 0 0 with
  | Except.ok s =>
    if s.bailed = false then
      some { ind1 := (p.1 : Int) + 1, ind2 := (p.2 : Int) + 1, num_mismatch := s.mm,
             num_loc := s.n }
    else none
  | Except.error _ => none

/-- Contribution of locus `l` to `n`. -/
def presentAt (S : IntegerMatrix) (i j l : Nat) : Int :=
  if 0 ≤ S.entry i l ∧ 0 ≤ S.entry j l then 1 else 0

/-- Contribution of locus `l` to `mm`. -/
def mismatchAt (S : IntegerMatrix) (i j l : Nat) : Int :=
  if 0 ≤ S.entry i l ∧ 0 ≤ S.entry j l then (if S.entry i l ≠ S.entry j l then 1 else 0) else 0

/-- Order of the nested loops on pairs: first by `i`, then by `j`. -/
def loopOrder (p q : Nat × Nat) : Prop :=
  p.1 < q.1 ∨ (p.1 = q.1 ∧ p.2 < q.2)

/-- Strict lexicographic order of two records on `(ind1, ind2)`. -/
def PairRecord.lexLt (a b : PairRecord) : Prop :=
  a.ind1 < b.ind1 ∨ (a.ind1 = b.ind1 ∧ a.ind2 < b.ind2)

/-! ## Reference definitions for `comp_ind_pairwise` -/

/-- Entry of `values` at an offset inside the table. -/
def tableAt {V : Type} [Zero V] (values : List V) (k : Int) : V :=
  values.getD k.toNat 0

/-- The offset `Starts[j] + nGenos[j] * sG + tG` as the source computes it, in 32-bit `int`
arithmetic. -/
def lookupOffset (nGenos Starts : List Int) (j : Nat) (sG tG : Int) : Int :=
  wrapInt (wrapInt (Starts.getD j 0 + wrapInt (nGenos.getD j 0 * sG)) + tG)

/-- The exact value of `Starts[j] + nGenos[j] * sG + tG`, without reduction to 32 bits. -/
def exactOffset (nGenos Starts : List Int) (j : Nat) (sG tG : Int) : Int :=
  Starts.getD j 0 + nGenos.getD j 0 * sG + tG

/-- Entry of row `t - 1` (`t` is base 1) of the target at locus `j`. -/
def targetEntry (T : IntegerMatrix) (t : Int) (j : Nat) : Int :=
  T.entry (t - 1).toNat j

/-- The offset computed for source row `i` and target row `t - 1` at locus `j`. -/
def offsetAt (S T : IntegerMatrix) (t : Int) (nGenos Starts : List Int) (i j : Nat) : Int :=
  lookupOffset nGenos Starts j (S.entry i j) (targetEntry T t j)

/-- The loci of `js` at which target row `t - 1` and source row `i` are both non-missing. -/
def jointLoci (S T : IntegerMatrix) (t : Int) (i : Nat) (js : List Nat) : List Nat :=
  js.filter (fun j => decide (0 ≤ targetEntry T t j ∧ 0 ≤ S.entry i j))

/-- Reference value of source row `i`: the table values at the jointly non-missing loci, added in
column order starting from zero. -/
def refValue {V : Type} [Zero V] [Add V] (S T : IntegerMatrix) (t : Int) (values : List V)
    (nGenos Starts : List Int) (i : Nat) : V :=
  (jointLoci S T t i (List.range S.ncol)).foldl
    (fun s j => s + tableAt values (offsetAt S T t nGenos Starts i j)) 0

/-- Reference count of source row `i`: the number of jointly non-missing loci. -/
def refCount (S T : IntegerMatrix) (t : Int) (i : Nat) : Int :=
  ((jointLoci S T t i (List.range S.ncol)).length : Int)

/-- Reference record of source row `i`. -/
def refRecord {V : Type} [Zero V] [Add V] (S T : IntegerMatrix) (t : Int) (values : List V)
    (nGenos Starts : List Int) (i : Nat) : IndRecord V :=
  { ind := (i : Int) + 1, value := refValue S T t values nGenos Starts i,
    num_loc := refCount S T t i }

/-- The lookup of source row `i` at locus `j` stays inside `Starts`, `nGenos` and `values`. -/
def LookupInRange {V : Type} (S T : IntegerMatrix) (t : Int) (values : List V)
    (nGenos Starts : List Int) (i j : Nat) : Prop :=
  j < Starts.length ∧ j < nGenos.length ∧
    0 ≤ offsetAt S T t nGenos Starts i j ∧ offsetAt S T t nGenos Starts i j < values.length

instance decidableLookupInRange {V : Type} (S T : IntegerMatrix) (t : Int) (values : List V)
    (nGenos Starts : List Int) (i j : Nat) :
    Decidable (LookupInRange S T t values nGenos Starts i j) := by
  delta LookupInRange; infer_instance

/-- Every offset computed by a call is in range: at each jointly non-missing locus of each source
row the lookup stays inside `Starts`, `nGenos` and `values`. -/
def OffsetsInRange {V : Type} (S T : IntegerMatrix) (t : Int) (values : List V)
    (nGenos Starts : List Int) : Prop :=
  ∀ i, i < S.nrow → ∀ j, j < S.ncol → 0 ≤ targetEntry T t j → 0 ≤ S.entry i j →
    LookupInRange S T t values nGenos Starts i j

instance decidableOffsetsInRange {V : Type} (S T : IntegerMatrix) (t : Int) (values : List V)
    (nGenos Starts : List Int) : Decidable (OffsetsInRange S T t values nGenos Starts) := by
  delta OffsetsInRange; infer_instance

/-- Every block of the table lies inside `values`: for each locus `j < L` the metadata exist, the
block starts at a non-negative offset and its `nGenos[j] * nGenos[j]` entries end inside
`values`. -/
def BlocksInRange {V : Type} (values : List V) (nGenos Starts : List Int) (L : Nat) : Prop :=
  ∀ j, j < L → j < Starts.length ∧ j < nGenos.length ∧ 0 ≤ Starts.getD j 0 ∧
    Starts.getD j 0 + nGenos.getD j 0 * nGenos.getD j 0 ≤ (values.length : Int)

instance decidableBlocksInRange {V : Type} (values : List V) (nGenos Starts : List Int)
    (L : Nat) : Decidable (BlocksInRange values nGenos Starts L) := by
  delta BlocksInRange; infer_instance

/-- Every genotype code of the source and of row `t - 1` of the target is below the number of
genotypes of its locus. -/
def CodesBelow (S T : IntegerMatrix) (t : Int) (nGenos : List Int) : Prop :=
  ∀ j, j < S.ncol → targetEntry T t j < nGenos.getD j 0 ∧
    ∀ i, i < S.nrow → S.entry i j < nGenos.getD j 0

instance decidableCodesBelow (S T : IntegerMatrix) (t : Int) (nGenos : List Int) :
    Decidable (CodesBelow S T t nGenos) := by
  delta CodesBelow; infer_instance

/-- The record of a source row that is compared at no locus. -/
def emptyRecord (V : Type) [Zero V] (i : Nat) : IndRecord V :=
  { ind := (i : Int) + 1, value := 0, num_loc := 0 }

/-- Every block of the table is symmetric: for each locus `j < L` and all codes `a`, `b` below
`nGenos[j]`, the entries `[a][b]` and `[b][a]` of the block are equal. -/
def SymmetricBlocks {V : Type} [Zero V] (values : List V) (nGenos Starts : List Int) (L : Nat) :
    Prop :=
  ∀ j, j < L → ∀ a, a < (nGenos.getD j 0).toNat → ∀ b, b < (nGenos.getD j 0).toNat →
    tableAt values (lookupOffset nGenos Starts j (a : Int) (b : Int)) =
      tableAt values (lookupOffset nGenos Starts j (b : Int) (a : Int))

instance decidableSymmetricBlocks {V : Type} [Zero V] [DecidableEq V] (values : List V)
    (nGenos Starts : List Int) (L : Nat) : Decidable (SymmetricBlocks values nGenos Starts L) := by
  delta SymmetricBlocks; infer_instance

/-! ## `pairwise_geno_id` with a counter of locus-loop passes -/

/-- The locus loop of `pairwise_geno_id` (lines 101-112) with a counter `v` that is incremented
at every pass of the loop body; the counter is the only addition to `scanLoci`. -/
def scanLociVisits (S : IntegerMatrix) (max_miss : Int) (i j : Nat) :
    List Nat → Int → Int → Nat → Except Fault (ScanState × Nat)
  | [], n, mm, v => pure ({ n := n, mm := mm, bailed := false }, v)
  | l :: ls, n, mm, v => do
    let G1 ← S.cell i l
    let G2 ← S.cell j l
    let n1 := if G1 ≥ 0 ∧ G2 ≥ 0 then n + 1 else n
    let mm1 := if G1 ≥ 0 ∧ G2 ≥ 0 then mm + (if G1 ≠ G2 then 1 else 0) else mm
    if mm1 > max_miss then
      pure ({ n := n1, mm := mm1, bailed := true }, v + 1)
    else
      scanLociVisits S max_miss i j ls n1 mm1 (v + 1)

/-- Body of the loop over `j` with the counter: the state is the output so far and the number of
locus-loop passes so far. -/
def scanPairVisits (S : IntegerMatrix) (max_miss : Int) (i : Nat) (st : List PairRecord × Nat)
    (j : Nat) : Except Fault (List PairRecord × Nat) := do
  let r ← scanLociVisits S max_miss i j (List.range S.ncol) 0 0 st.2
  if r.1.bailed = false then
    pure (st.1 ++ [{ ind1 := (i : Int) + 1, ind2 := (j : Int) + 1, num_mismatch := r.1.mm,
                     num_loc := r.1.n }], r.2)
  else
    pure (st.1, r.2)

/-- Body of the loop over `i` with the counter. -/
def scanRowVisits (S : IntegerMatrix) (max_miss : Int) (st : List PairRecord × Nat) (i : Nat) :
    Except Fault (List PairRecord × Nat) :=
  (List.range' (i + 1) (S.nrow - (i + 1))).foldlM (scanPairVisits S max_miss i) st

/-- The routine `pairwise_geno_id` with the counter: its result and the total number of
locus-loop passes executed. -/
def pairwise_geno_id_visits (S : IntegerMatrix) (max_miss : Int) :
    Except Fault (List PairRecord × Nat) :=
  (List.range S.nrow).foldlM (scanRowVisits S max_miss) ([], 0)

/-- Reference count of the passes of the locus loop over the loci `ls` entered with `mm`: one
pass per locus up to and including the first locus at which the running count passes the
bound. -/
def visitCount (S : IntegerMatrix) (max_miss : Int) (i j : Nat) : List Nat → Int → Nat
  | [], _ => 0
  | l :: ls, mm =>
    if mm + mismatchAt S i j l > max_miss then 1
    else visitCount S max_miss i j ls (mm + mismatchAt S i j l) + 1

/-- Number of mismatches among the first `k` loci (running count after `k` passes). -/
def runningMismatch (S : IntegerMatrix) (i j k : Nat) : Int :=
  ((mismatchLoci S i j (List.range k)).length : Int)

/-- Number of compared loci among the first `k` loci. -/
def runningCompared (S : IntegerMatrix) (i j k : Nat) : Int :=
  ((presentLoci S i j (List.range k)).length : Int)

/-- Reference count of the passes of the locus loop for the pair `p` over all the columns. -/
def pairVisits (S : IntegerMatrix) (max_miss : Int) (p : Nat × Nat) : Nat :=
  visitCount S max_miss p.1 p.2 (List.range S.ncol) 0

/-! ## Columns in another order -/

/-- The storage of the columns `σ[0], σ[1], ...` of `S`, one after the other. -/
def columnsData (S : IntegerMatrix) (σ : List Nat) : List Int :=
  σ.flatMap (fun c => (List.range S.nrow).map (fun r => S.entry r c))

/-- The matrix whose columns are the columns `σ[0], σ[1], ...` of `S`, in this order; when `σ` is
a permutation of `0, ..., S.ncol - 1` this is `S` with its columns permuted. -/
def selectColumns (S : IntegerMatrix) (σ : List Nat) : IntegerMatrix :=
  { nrow := S.nrow, ncol := σ.length, data := columnsData S σ,
    dim_ok := by
      unfold columnsData
      induction σ with
      | nil => rfl
      | cons c cs ih =>
        rw [List.flatMap_cons, List.length_append, ih, List.length_map, List.length_range,
          List.length_cons, Nat.mul_succ, Nat.add_comm] }

/-! ## Example inputs -/

/-- The matrix of the second scenario of the specification, rows `(0,0,0)`, `(0,0,1)`,
`(0,1,1)`, stored by columns. -/
def scenarioB : IntegerMatrix :=
  { nrow := 3, ncol := 3, data := [0, 0, 0, 0, 0, 1, 0, 1, 1], dim_ok := by decide }

/-- A matrix with two rows and no column. -/
def twoRowsNoColumn : IntegerMatrix :=
  { nrow := 2, ncol := 0, data := [], dim_ok := by decide }

/-- Source matrix of the first scenario of the specification, rows `(0, 1)` and `(1, -1)`, stored
by columns. -/
def scenarioSource : IntegerMatrix :=
  { nrow := 2, ncol := 2, data := [0, 1, 1, -1], dim_ok := by decide }

/-- Target matrix of the first scenario of the specification, the single row `(1, 0)`. -/
def scenarioTarget : IntegerMatrix :=
  { nrow := 1, ncol := 2, data := [1, 0], dim_ok := by decide }

/-- A table for two loci with two genotypes each: block `[1, 2, 3, 4]` at offset `0` and block
`[10, 20, 30, 40]` at offset `4`. -/
def scenarioValues : List Int := [1, 2, 3, 4, 10, 20, 30, 40]

/-- A target with one row and no column. -/
def oneRowNoColumn : IntegerMatrix :=
  { nrow := 1, ncol := 0, data := [], dim_ok := by decide }

/-- A source with the single entry `0`. -/
def singleZero : IntegerMatrix :=
  { nrow := 1, ncol := 1, data := [0], dim_ok := by decide }

/-- A source with the single entry `1`. -/
def singleOne : IntegerMatrix :=
  { nrow := 1, ncol := 1, data := [1], dim_ok := by decide }

/-- A target with the single row `(0, 1)`. -/
def oneRowTwoColumns : IntegerMatrix :=
  { nrow := 1, ncol := 2, data := [0, 1], dim_ok := by decide }

/-- A source whose row `0` is `(0, -1)`; its second row is `(1, 1)`. -/
def neutralSourceA : IntegerMatrix :=
  { nrow := 2, ncol := 2, data := [0, 1, -1, 1], dim_ok := by decide }

/-- A source whose row `0` is `(0, -5)`, a single row. -/
def neutralSourceB : IntegerMatrix :=
  { nrow := 1, ncol := 2, data := [0, -5], dim_ok := by decide }

/-- A target whose rows are `(1, 1)` and `(0, 0)`. -/
def neutralTargetA : IntegerMatrix :=
  { nrow := 2, ncol := 2, data := [1, 0, 1, 0], dim_ok := by decide }

/-- A target with the single row `(1, -3)`. -/
def neutralTargetB : IntegerMatrix :=
  { nrow := 1, ncol := 2, data := [1, -3], dim_ok := by decide }

/-- A matrix with rows `(0, -5)` and `(1, 7)`: it agrees with `neutralSourceA` wherever both rows
are non-missing. -/
def neutralPairB : IntegerMatrix :=
  { nrow := 2, ncol := 2, data := [0, 1, -5, 7], dim_ok := by decide }

/-- A matrix with rows `(0, -1)` and `(-1, 0)`: no locus is non-missing in both rows. -/
def disjointRows : IntegerMatrix :=
  { nrow := 2, ncol := 2, data := [0, -1, -1, 0], dim_ok := by decide }

/-- A matrix with the row `(0, -1, 2)` twice. -/
def duplicateRows : IntegerMatrix :=
  { nrow := 2, ncol := 3, data := [0, 0, -1, -1, 2, 2], dim_ok := by decide }

/-- A target with the single row `(-1, 0)`. -/
def halfMissingTarget : IntegerMatrix :=
  { nrow := 1, ncol := 2, data := [-1, 0], dim_ok := by decide }

/-- One block for two genotypes with `[0][1] = 2` and `[1][0] = 3`. -/
def asymmetricValues : List Int := [1, 2, 3, 4]

/-- One block for two genotypes with `[0][1] = [1][0] = 2`. -/
def symmetricValues : List Int := [1, 2, 2, 4]

/-- A matrix with rows `(0, 5)`, `(1, 5)`, `(2, 5)`: every pair differs at the first locus. -/
def distinctFirstLocus : IntegerMatrix :=
  { nrow := 3, ncol := 2, data := [0, 1, 2, 5, 5, 5], dim_ok := by decide }

/-- A source with the single entry `65536`. -/
def sourceCode65536 : IntegerMatrix :=
  { nrow := 1, ncol := 1, data := [65536], dim_ok := by decide }

/-- A source with the single entry `32768`. -/
def sourceCode32768 : IntegerMatrix :=
  { nrow := 1, ncol := 1, data := [32768], dim_ok := by decide }

/-! # Theorems -/

/-! ## Basic facts about subscripts and loops -/

theorem readVec_ok {α : Type} (v : List α) (k : Nat) (h : k < v.length) :
    readVec v (k : Int) = Except.ok (v.get ⟨k, h⟩) := by
  unfold readVec
  have h0 : (0 : Int) ≤ (k : Int) := Int.ofNat_nonneg k
  simp only [h0, if_true, Int.toNat_ofNat]
  rw [List.getElem?_eq_getElem h]
  rfl

theorem readVec_ok_getD {α : Type} (v : List α) (k : Nat) (d : α) (h : k < v.length) :
    readVec v (k : Int) = Except.ok (v.getD k d) := by
  rw [readVec_ok v k h]
  simp [List.getD_eq_getElem?_getD, List.getElem?_eq_getElem h]

theorem readVec_neg {α : Type} (v : List α) (k : Int) (h : k < 0) :
    readVec v k = Except.error Fault.undefinedBehaviour := by
  unfold readVec
  have h0 : ¬ (0 : Int) ≤ k := not_le.mpr h
  simp [h0]

theorem readVec_large {α : Type} (v : List α) (k : Int) (h : (v.length : Int) ≤ k) :
    readVec v k = Except.error Fault.undefinedBehaviour := by
  unfold readVec
  have hk : 0 ≤ k := le_trans (Int.ofNat_nonneg _) h
  have hlen : v.length ≤ k.toNat := by omega
  simp [hk, List.getElem?_eq_none hlen]

theorem cell_offset_lt (M : IntegerMatrix) (i j : Nat) (hi : i < M.nrow) (hj : j < M.ncol) :
    i + M.nrow * j < M.data.length := by
  rw [M.dim_ok]
  calc i + M.nrow * j < M.nrow + M.nrow * j := by omega
    _ = M.nrow * (j + 1) := by ring
    _ ≤ M.nrow * M.ncol := Nat.mul_le_mul_left _ hj

theorem cell_ok (M : IntegerMatrix) (i j : Nat) (hi : i < M.nrow) (hj : j < M.ncol) :
    M.cell (i : Int) (j : Int) = Except.ok (M.entry i j) := by
  unfold IntegerMatrix.cell IntegerMatrix.entry
  have h := readVec_ok_getD M.data (i + M.nrow * j) 0 (cell_offset_lt M i j hi hj)
  have e : ((i : Int) + (M.nrow : Int) * (j : Int)) = ((i + M.nrow * j : Nat) : Int) := by
    push_cast; ring
  rw [e]; exact h

/-- A loop whose body appends `g x` to the output, for every `x` it runs over, appends the
concatenation of the `g x`. -/
theorem foldlM_append_ok {α β : Type} (f : List β → α → Except Fault (List β)) (g : α → List β)
    (xs : List α) (h : ∀ x ∈ xs, ∀ out, f out x = Except.ok (out ++ g x)) (out : List β) :
    xs.foldlM f out = Except.ok (out ++ xs.flatMap g) := by
  induction xs generalizing out with
  | nil => simp [pure, Except.pure]
  | cons x xs ih =>
    rw [List.foldlM_cons, h x (List.mem_cons_self x xs) out]
    have ih2 := ih (fun y hy => h y (List.mem_cons_of_mem x hy)) (out ++ g x)
    simp only [bind, Except.bind]
    rw [ih2, List.flatMap_cons, List.append_assoc]

/-! ## The locus loop of `pairwise_geno_id` -/

theorem mismatchAt_nonneg (S : IntegerMatrix) (i j l : Nat) : 0 ≤ mismatchAt S i j l := by
  unfold mismatchAt; split_ifs <;> decide

theorem scanLoci_cons (S : IntegerMatrix) (m : Int) (i j l : Nat) (ls : List Nat) (n mm : Int)
    (hi : i < S.nrow) (hj : j < S.nrow) (hl : l < S.ncol) :
    scanLoci S m i j (l :: ls) n mm =
      if mm + mismatchAt S i j l > m then
        Except.ok { n := n + presentAt S i j l, mm := mm + mismatchAt S i j l, bailed := true }
      else
        scanLoci S m i j ls (n + presentAt S i j l) (mm + mismatchAt S i j l) := by
  simp only [scanLoci, cell_ok S i l hi hl, cell_ok S j l hj hl, bind, Except.bind, pure,
    Except.pure, ge_iff_le]
  unfold presentAt mismatchAt
  by_cases hp : 0 ≤ S.entry i l ∧ 0 ≤ S.entry j l
  · simp only [hp, and_self, if_true]
  · simp only [hp, if_false, add_zero]

theorem presentLoci_cons (S : IntegerMatrix) (i j l : Nat) (ls : List Nat) :
    ((presentLoci S i j (l :: ls)).length : Int) =
      presentAt S i j l + (presentLoci S i j ls).length := by
  unfold presentLoci presentAt
  by_cases h : 0 ≤ S.entry i l ∧ 0 ≤ S.entry j l
  · simp [List.filter_cons, h]; ring
  · simp [List.filter_cons, h]

theorem mismatchLoci_cons (S : IntegerMatrix) (i j l : Nat) (ls : List Nat) :
    ((mismatchLoci S i j (l :: ls)).length : Int) =
      mismatchAt S i j l + (mismatchLoci S i j ls).length := by
  unfold mismatchLoci mismatchAt
  by_cases h : 0 ≤ S.entry i l ∧ 0 ≤ S.entry j l
  · by_cases h2 : S.entry i l = S.entry j l
    · simp [List.filter_cons, h, h2]
    · simp [List.filter_cons, h, h2]; ring
  · simp [List.filter_cons, h]

/-- The locus loop returns for every pair of rows; it ends without bailing exactly when there is
no locus to scan or the count of mismatches over all the loci keeps `mm` within `max_miss`, and
then its counters hold the counts over all the loci. -/
theorem scanLoci_spec (S : IntegerMatrix) (m : Int) (i j : Nat) (hi : i < S.nrow)
    (hj : j < S.nrow) (ls : List Nat) (hls : ∀ l ∈ ls, l < S.ncol) (n mm : Int) :
    ∃ s, scanLoci S m i j ls n mm = Except.ok s ∧
      (s.bailed = false ↔ (ls = [] ∨ mm + (mismatchLoci S i j ls).length ≤ m)) ∧
      (s.bailed = false →
        s.n = n + (presentLoci S i j ls).length ∧ s.mm = mm + (mismatchLoci S i j ls).length) := by
  induction ls generalizing n mm with
  | nil =>
    refine ⟨{ n := n, mm := mm, bailed := false }, rfl, ?_, ?_⟩
    · simp
    · intro _; simp [presentLoci, mismatchLoci]
  | cons l ls ih =>
    have hl : l < S.ncol := hls l (List.mem_cons_self l ls)
    have hls2 : ∀ x ∈ ls, x < S.ncol := fun x hx => hls x (List.mem_cons_of_mem l hx)
    rw [scanLoci_cons S m i j l ls n mm hi hj hl, presentLoci_cons, mismatchLoci_cons]
    have hnn : (0 : Int) ≤ ((mismatchLoci S i j ls).length : Int) := Int.ofNat_nonneg _
    have hd := mismatchAt_nonneg S i j l
    by_cases hb : mm + mismatchAt S i j l > m
    · rw [if_pos hb]
      refine ⟨_, rfl, ?_, ?_⟩
      · constructor
        · intro h; exact Bool.noConfusion h
        · rintro (h | h)
          · exact absurd h (List.cons_ne_nil l ls)
          · omega
      · intro h; exact Bool.noConfusion h
    · rw [if_neg hb]
      obtain ⟨s, hs, h1, h2⟩ := ih hls2 (n + presentAt S i j l) (mm + mismatchAt S i j l)
      refine ⟨s, hs, ?_, ?_⟩
      · rw [h1]
        constructor
        · rintro (h | h)
          · right; subst h
            have : ((mismatchLoci S i j []).length : Int) = 0 := by simp [mismatchLoci]
            omega
          · right; omega
        · rintro (h | h)
          · exact absurd h (List.cons_ne_nil l ls)
          · right; omega
      · intro hbf
        obtain ⟨a, b⟩ := h2 hbf
        constructor <;> omega

/-! ## The pair loops of `pairwise_geno_id` -/

theorem mem_rowPairs (n i j : Nat) : (i, j) ∈ rowPairs n ↔ i < j ∧ j < n := by
  unfold rowPairs
  simp only [List.mem_flatMap, List.mem_range, List.mem_map, List.mem_range'_1, Prod.mk.injEq]
  constructor
  · rintro ⟨a, ha, b, ⟨hb1, hb2⟩, rfl, rfl⟩
    omega
  · rintro ⟨h1, h2⟩
    exact ⟨i, by omega, j, ⟨by omega, by omega⟩, rfl, rfl⟩

theorem flatMap_toList_eq_filterMap {α β : Type} (g : α → Option β) (l : List α) :
    l.flatMap (fun x => (g x).toList) = l.filterMap g := by
  induction l with
  | nil => rfl
  | cons x xs ih =>
    rw [List.flatMap_cons, ih, List.filterMap_cons]
    cases g x <;> rfl

theorem filterMap_flatMap_eq {α β γ : Type} (f : α → List β) (g : β → Option γ) (l : List α) :
    (l.flatMap f).filterMap g = l.flatMap (fun x => (f x).filterMap g) := by
  induction l with
  | nil => rfl
  | cons x xs ih => rw [List.flatMap_cons, List.filterMap_append, ih, List.flatMap_cons]

theorem filterMap_ite_eq_filter_map {α β : Type} (f : α → β) (c : β → Bool) (l : List α) :
    l.filterMap (fun p => if c (f p) = true then some (f p) else none) = (l.map f).filter c := by
  induction l with
  | nil => rfl
  | cons x xs ih =>
    rw [List.filterMap_cons, List.map_cons, List.filter_cons]
    by_cases h : c (f x) = true
    · simp only [h, if_true, ih]
    · simp only [h, if_false, ih]; rfl

/-- The record of a pair is pushed exactly when the matrix has no column or the full-scan count
of mismatches is within the bound, and it then carries the full-scan counts. -/
theorem pushed_eq (S : IntegerMatrix) (m : Int) (i j : Nat) (hi : i < S.nrow) (hj : j < S.nrow) :
    pushed S m (i, j) =
      if S.ncol = 0 ∨ mismatchCount S i j ≤ m then some (fullRecord S (i, j)) else none := by
  obtain ⟨s, hs, h1, h2⟩ := scanLoci_spec S m i j hi hj (List.range S.ncol)
    (fun l hl => List.mem_range.mp hl) 0 0
  unfold pushed
  simp only [hs]
  rw [List.range_eq_nil, zero_add] at h1
  by_cases hb : s.bailed = false
  · obtain ⟨a, b⟩ := h2 hb
    rw [zero_add] at a b
    have hc : S.ncol = 0 ∨ mismatchCount S i j ≤ m := h1.mp hb
    rw [if_pos hb, if_pos hc]
    simp only [fullRecord, mismatchCount, nonMissingCount, a, b]
  · have hc : ¬ (S.ncol = 0 ∨ mismatchCount S i j ≤ m) := fun h => hb (h1.mpr h)
    rw [if_neg hb, if_neg hc]

theorem scanPair_eq (S : IntegerMatrix) (m : Int) (i j : Nat) (hi : i < S.nrow) (hj : j < S.nrow)
    (out : List PairRecord) :
    scanPair S m i out j = Except.ok (out ++ (pushed S m (i, j)).toList) := by
  obtain ⟨s, hs, _, _⟩ := scanLoci_spec S m i j hi hj (List.range S.ncol)
    (fun l hl => List.mem_range.mp hl) 0 0
  unfold scanPair pushed
  simp only [hs, bind, Except.bind, pure, Except.pure]
  by_cases hb : s.bailed = false
  · rw [if_pos hb, if_pos hb]; rfl
  · rw [if_neg hb, if_neg hb]; simp [Option.toList]

theorem scanRow_eq (S : IntegerMatrix) (m : Int) (i : Nat) (hi : i < S.nrow)
    (out : List PairRecord) :
    scanRow S m out i = Except.ok (out ++
      ((List.range' (i + 1) (S.nrow - (i + 1))).map (fun j => (i, j))).filterMap (pushed S m)) := by
  unfold scanRow
  rw [foldlM_append_ok (scanPair S m i) (fun j => (pushed S m (i, j)).toList)]
  · rw [flatMap_toList_eq_filterMap (fun j => pushed S m (i, j)), List.filterMap_map]
    rfl
  · intro j hj out2
    rw [List.mem_range'_1] at hj
    exact scanPair_eq S m i j hi (by omega) out2

/-- The routine returns, for every matrix and every bound, the pushed records of the row pairs in
the order of the nested loops. -/
theorem pairwise_geno_id_eq (S : IntegerMatrix) (m : Int) :
    pairwise_geno_id S m = Except.ok ((rowPairs S.nrow).filterMap (pushed S m)) := by
  unfold pairwise_geno_id
  rw [foldlM_append_ok (scanRow S m) (fun i =>
    ((List.range' (i + 1) (S.nrow - (i + 1))).map (fun j => (i, j))).filterMap (pushed S m))]
  · rw [List.nil_append, rowPairs, filterMap_flatMap_eq]
  · intro i hi out
    exact scanRow_eq S m i (List.mem_range.mp hi) out

/-- With a non-negative bound, or with at least one column, the pushed records are those of the
full scan filtered by the bound. -/
theorem pairwise_geno_id_eq_unpruned (S : IntegerMatrix) (m : Int) (h : 0 ≤ m ∨ 0 < S.ncol) :
    pairwise_geno_id S m = Except.ok (unprunedScan S m) := by
  rw [pairwise_geno_id_eq, unprunedScan,
    ← filterMap_ite_eq_filter_map (fullRecord S) (fun r => decide (r.num_mismatch ≤ m))]
  congr 1
  apply List.filterMap_congr
  rintro ⟨i, j⟩ hp
  rw [mem_rowPairs] at hp
  rw [pushed_eq S m i j (by omega) hp.2]
  have hiff : (S.ncol = 0 ∨ mismatchCount S i j ≤ m) ↔ mismatchCount S i j ≤ m := by
    constructor
    · rintro (h0 | h1)
      · rcases h with h | h
        · have : mismatchCount S i j = 0 := by simp [mismatchCount, mismatchLoci, h0]
          omega
        · omega
      · exact h1
    · exact Or.inr
  simp only [hiff, decide_eq_true_eq, fullRecord]

theorem pushed_index (S : IntegerMatrix) (m : Int) (p : Nat × Nat) (r : PairRecord)
    (h : r ∈ pushed S m p) : r.ind1 = (p.1 : Int) + 1 ∧ r.ind2 = (p.2 : Int) + 1 := by
  unfold pushed at h
  split at h
  · split_ifs at h
    · rw [Option.mem_def, Option.some.injEq] at h
      subst h
      exact ⟨rfl, rfl⟩
    · exact absurd h (by simp)
  · exact absurd h (by simp)

theorem rowPairs_pairwise (n : Nat) : (rowPairs n).Pairwise loopOrder := by
  unfold rowPairs
  rw [List.pairwise_flatMap]
  constructor
  · intro i _
    rw [List.pairwise_map]
    exact (List.pairwise_lt_range' (i + 1) (n - (i + 1))).imp (fun h => Or.inr ⟨rfl, h⟩)
  · refine (List.pairwise_lt_range n).imp ?_
    intro a b hab x hx y hy
    rw [List.mem_map] at hx hy
    obtain ⟨_, _, rfl⟩ := hx
    obtain ⟨_, _, rfl⟩ := hy
    exact Or.inl hab

/-! ## Claims about `pairwise_geno_id` -/

/-- C1 (pruning equivalence). For every matrix and every non-negative bound, the early-exit scan
returns exactly the unpruned scan filtered afterwards by `num_mismatch ≤ max_miss`: its records
are the records `(i + 1, j + 1, mm, n)` of the row pairs `i < j` whose count `mm` of loci that are
non-missing in both rows and differ, over all columns, is at most `max_miss`, with `n` the count
of loci non-missing in both rows over all columns. -/
theorem pruning_equivalence (S : IntegerMatrix) (max_miss : Int) (h : 0 ≤ max_miss) :
    pairwise_geno_id S max_miss = Except.ok (unprunedScan S max_miss) ∧
    ∀ r : PairRecord, r ∈ unprunedScan S max_miss ↔
      ∃ i j : Nat, i < j ∧ j < S.nrow ∧ mismatchCount S i j ≤ max_miss ∧
        r = { ind1 := (i : Int) + 1, ind2 := (j : Int) + 1,
              num_mismatch := mismatchCount S i j, num_loc := nonMissingCount S i j } := by
  refine ⟨pairwise_geno_id_eq_unpruned S max_miss (Or.inl h), ?_⟩
  intro r
  unfold unprunedScan
  rw [List.mem_filter, List.mem_map]
  constructor
  · rintro ⟨⟨⟨i, j⟩, hp, rfl⟩, hle⟩
    rw [mem_rowPairs] at hp
    exact ⟨i, j, hp.1, hp.2, by simpa [fullRecord] using hle, rfl⟩
  · rintro ⟨i, j, hij, hj, hle, rfl⟩
    exact ⟨⟨(i, j), (mem_rowPairs S.nrow i j).mpr ⟨hij, hj⟩, rfl⟩, by simpa using hle⟩

/-- Witness of C1 on the second scenario of the specification: with bound `1` the pairs `(1, 2)`
and `(2, 3)` are returned with one mismatch over three loci each, the pair `(1, 3)` is not. -/
theorem pruning_equivalence_witness :
    (0 : Int) ≤ 1 ∧
    pairwise_geno_id scenarioB 1 = Except.ok (unprunedScan scenarioB 1) ∧
    unprunedScan scenarioB 1 =
      [{ ind1 := 1, ind2 := 2, num_mismatch := 1, num_loc := 3 },
       { ind1 := 2, ind2 := 3, num_mismatch := 1, num_loc := 3 }] :=
  ⟨by decide, (pruning_equivalence scenarioB 1 (by decide)).1, by decide⟩

/-- C4 (index and order contract). For every matrix and every bound the routine returns a table
whose records satisfy `1 ≤ ind1 < ind2 ≤ S.nrow` and stand in strictly increasing lexicographic
order of `(ind1, ind2)`; hence no pair of indices occurs twice. -/
theorem index_order_contract (S : IntegerMatrix) (max_miss : Int) :
    ∃ recs, pairwise_geno_id S max_miss = Except.ok recs ∧
      (∀ r ∈ recs, 1 ≤ r.ind1 ∧ r.ind1 < r.ind2 ∧ r.ind2 ≤ (S.nrow : Int)) ∧
      recs.Pairwise PairRecord.lexLt ∧
      (recs.map (fun r => (r.ind1, r.ind2))).Nodup := by
  refine ⟨_, pairwise_geno_id_eq S max_miss, ?_, ?_, ?_⟩
  · intro r hr
    rw [List.mem_filterMap] at hr
    obtain ⟨⟨i, j⟩, hp, hr⟩ := hr
    rw [mem_rowPairs] at hp
    obtain ⟨h1, h2⟩ := pushed_index S max_miss (i, j) r hr
    simp only at h1 h2
    omega
  · refine List.Pairwise.filterMap (pushed S max_miss) ?_ (rowPairs_pairwise S.nrow)
    intro p q hpq a ha b hb
    obtain ⟨a1, a2⟩ := pushed_index S max_miss p a ha
    obtain ⟨b1, b2⟩ := pushed_index S max_miss q b hb
    unfold loopOrder at hpq
    unfold PairRecord.lexLt
    omega
  · unfold List.Nodup
    rw [List.pairwise_map]
    refine (List.Pairwise.filterMap (pushed S max_miss) ?_ (rowPairs_pairwise S.nrow))
    intro p q hpq a ha b hb
    obtain ⟨a1, a2⟩ := pushed_index S max_miss p a ha
    obtain ⟨b1, b2⟩ := pushed_index S max_miss q b hb
    unfold loopOrder at hpq
    intro hab
    rw [Prod.mk.injEq] at hab
    omega

/-- A negative bound and at least one column: every pair bails at the first locus. -/
theorem unprunedScan_neg (S : IntegerMatrix) (m : Int) (h : m < 0) : unprunedScan S m = [] := by
  unfold unprunedScan
  rw [List.filter_eq_nil_iff]
  intro r hr
  rw [List.mem_map] at hr
  obtain ⟨p, _, rfl⟩ := hr
  have : (0 : Int) ≤ mismatchCount S p.1 p.2 := Int.ofNat_nonneg _
  simp only [fullRecord, decide_eq_true_eq, not_le]
  omega

/-- C5, the claim as stated fails: on the matrix of the second scenario the call with bound `-1`
returns a (empty) table and signals no invalid-argument error. -/
theorem negative_bound_returns :
    pairwise_geno_id scenarioB (-1) = Except.ok [] ∧
    pairwise_geno_id scenarioB (-1) ≠ Except.error (Fault.raised ErrorKind.InvalidArgument) := by
  decide

/-- C5 as amended: the routine does not validate `max_miss`; for a negative bound and a matrix
with at least one column the call returns the empty table, without an error. -/
theorem negative_bound_empty (S : IntegerMatrix) (max_miss : Int) (h : max_miss < 0)
    (hc : 0 < S.ncol) : pairwise_geno_id S max_miss = Except.ok [] := by
  rw [pairwise_geno_id_eq_unpruned S max_miss (Or.inr hc), unprunedScan_neg S max_miss h]

/-- Witness of the amended C5 on the matrix of the second scenario with bound `-1`. -/
theorem negative_bound_empty_witness :
    (-1 : Int) < 0 ∧ 0 < scenarioB.ncol ∧ pairwise_geno_id scenarioB (-1) = Except.ok [] :=
  ⟨by decide, by decide, negative_bound_empty scenarioB (-1) (by decide) (by decide)⟩

/-- C9, evaluation at the failing input: for a matrix with two rows and no column and the bound
`-1` the routine returns the pair `(1, 2)` with `num_mismatch = 0`, which is above the bound. -/
theorem zero_columns_negative_bound :
    pairwise_geno_id twoRowsNoColumn (-1) =
      Except.ok [{ ind1 := 1, ind2 := 2, num_mismatch := 0, num_loc := 0 }] ∧
    ¬ ((0 : Int) ≤ -1) := by
  decide

/-- Every returned record is within the bound as soon as the bound is non-negative or the matrix
has a column. -/
theorem within_bound (S : IntegerMatrix) (max_miss : Int) (h : 0 ≤ max_miss ∨ 0 < S.ncol) :
    ∃ recs, pairwise_geno_id S max_miss = Except.ok recs ∧
      ∀ r ∈ recs, r.num_mismatch ≤ max_miss := by
  refine ⟨_, pairwise_geno_id_eq_unpruned S max_miss h, ?_⟩
  intro r hr
  unfold unprunedScan at hr
  rw [List.mem_filter] at hr
  simpa using hr.2

/-! ## The loops of `comp_ind_pairwise` -/

theorem readVec_fault {α : Type} (v : List α) (k : Int) (e : Fault)
    (h : readVec v k = Except.error e) : e = Fault.undefinedBehaviour := by
  unfold readVec at h
  split_ifs at h
  · split at h
    · exact Except.noConfusion h
    · exact (Except.error.inj h).symm
  · exact (Except.error.inj h).symm

theorem target_cell_ok (T : IntegerMatrix) (t : Int) (j : Nat) (ht1 : 1 ≤ t)
    (ht2 : t ≤ (T.nrow : Int)) (hj : j < T.ncol) :
    T.cell (t - 1) (j : Int) = Except.ok (targetEntry T t j) := by
  have h := cell_ok T (t - 1).toNat j (by omega) hj
  have e : (((t - 1).toNat : Nat) : Int) = t - 1 := Int.toNat_of_nonneg (by omega)
  rw [e] at h
  exact h

theorem readVec_tableAt {V : Type} [Zero V] (values : List V) (k : Int) (h0 : 0 ≤ k)
    (h1 : k < (values.length : Int)) : readVec values k = Except.ok (tableAt values k) := by
  have h := readVec_ok_getD values k.toNat 0 (by omega)
  rw [Int.toNat_of_nonneg h0] at h
  exact h

section CompIndFacts

variable {V : Type} [Zero V] [Add V]

/-- One pass of the locus loop when all its subscripts are in range. -/
theorem compLocus_ok (S T : IntegerMatrix) (t : Int) (values : List V) (nGenos Starts : List Int)
    (i j : Nat) (acc : V × Int) (hi : i < S.nrow) (hj : j < S.ncol) (hjT : j < T.ncol)
    (ht1 : 1 ≤ t) (ht2 : t ≤ (T.nrow : Int))
    (hr : 0 ≤ targetEntry T t j → 0 ≤ S.entry i j → LookupInRange S T t values nGenos Starts i j) :
    compLocus S T t values nGenos Starts i acc j =
      Except.ok (if 0 ≤ targetEntry T t j ∧ 0 ≤ S.entry i j then
        (acc.1 + tableAt values (offsetAt S T t nGenos Starts i j), acc.2 + 1) else acc) := by
  unfold compLocus
  simp only [target_cell_ok T t j ht1 ht2 hjT, cell_ok S i j hi hj, bind, Except.bind, ge_iff_le]
  by_cases hp : 0 ≤ targetEntry T t j ∧ 0 ≤ S.entry i j
  · obtain ⟨h1, h2, h3, h4⟩ := hr hp.1 hp.2
    rw [if_pos hp, if_pos hp]
    simp only [readVec_ok_getD Starts j 0 h1, readVec_ok_getD nGenos j 0 h2]
    have h5 := readVec_tableAt values (offsetAt S T t nGenos Starts i j) h3 h4
    unfold offsetAt lookupOffset at h5
    simp only [h5]
    rfl
  · rw [if_neg hp, if_neg hp]; rfl

/-- The locus loop over any list of loci whose subscripts are all in range. -/
theorem compLoci_ok (S T : IntegerMatrix) (t : Int) (values : List V) (nGenos Starts : List Int)
    (i : Nat) (hi : i < S.nrow) (ht1 : 1 ≤ t) (ht2 : t ≤ (T.nrow : Int)) (js : List Nat)
    (hjs : ∀ j ∈ js, j < S.ncol ∧ j < T.ncol ∧
      (0 ≤ targetEntry T t j → 0 ≤ S.entry i j → LookupInRange S T t values nGenos Starts i j))
    (acc : V × Int) :
    js.foldlM (compLocus S T t values nGenos Starts i) acc =
      Except.ok ((jointLoci S T t i js).foldl
          (fun s j => s + tableAt values (offsetAt S T t nGenos Starts i j)) acc.1,
        acc.2 + ((jointLoci S T t i js).length : Int)) := by
  induction js generalizing acc with
  | nil => simp [jointLoci, pure, Except.pure]
  | cons j js ih =>
    obtain ⟨h1, h2, h3⟩ := hjs j (List.mem_cons_self j js)
    rw [List.foldlM_cons, compLocus_ok S T t values nGenos Starts i j acc hi h1 h2 ht1 ht2 h3]
    simp only [bind, Except.bind]
    rw [ih (fun x hx => hjs x (List.mem_cons_of_mem j hx))]
    unfold jointLoci
    by_cases hp : 0 ≤ targetEntry T t j ∧ 0 ≤ S.entry i j
    · simp only [hp, and_self, if_true, List.filter_cons, decide_True, List.foldl_cons,
        List.length_cons, Nat.cast_add, Nat.cast_one]
      congr 2
      ring
    · simp only [hp, if_false, List.filter_cons, decide_False]
      rfl

/-- For a valid call (the target has at least the columns of the source, `t` addresses a row of
the target, every computed offset is in range) the routine returns the reference records of the
source rows in row order. -/
theorem comp_ind_pairwise_eq (S T : IntegerMatrix) (t : Int) (values : List V)
    (nGenos Starts : List Int) (hc : S.ncol ≤ T.ncol) (ht1 : 1 ≤ t) (ht2 : t ≤ (T.nrow : Int))
    (hr : OffsetsInRange S T t values nGenos Starts) :
    comp_ind_pairwise S T t values nGenos Starts =
      Except.ok ((List.range S.nrow).map (refRecord S T t values nGenos Starts)) := by
  unfold comp_ind_pairwise
  rw [foldlM_append_ok (compRow S T t values nGenos Starts)
    (fun i => [refRecord S T t values nGenos Starts i])]
  · rw [List.nil_append]
    congr 1
    induction List.range S.nrow with
    | nil => rfl
    | cons x xs ih => rw [List.flatMap_cons, ih]; rfl
  · intro i hi out
    rw [List.mem_range] at hi
    unfold compRow
    rw [compLoci_ok S T t values nGenos Starts i hi ht1 ht2 (List.range S.ncol)]
    · simp only [bind, Except.bind, pure, Except.pure, zero_add]
      rfl
    · intro j hj
      rw [List.mem_range] at hj
      exact ⟨hj, by omega, hr i hi j hj⟩

end CompIndFacts

/-! ## Claims about `comp_ind_pairwise` -/

theorem getElem?_map_range {β : Type} (f : Nat → β) (n i : Nat) (hi : i < n) :
    ((List.range n).map f)[i]? = some (f i) := by
  rw [List.getElem?_map, List.getElem?_range hi]
  rfl

/-- C2 (reference value). For source and target with the same number of columns, `t` addressing a
row of the target and a table whose computed offsets are in range, the call returns and the record
of source row `i` has as value the table entries `values[Starts[j] + nGenos[j] * S[i,j] +
T[t-1,j]]` of the loci `j` that are non-missing on both sides, added in column order starting from
zero, and as `num_loc` the number of those loci. -/
theorem reference_value {V : Type} [Zero V] [Add V] (S T : IntegerMatrix) (t : Int)
    (values : List V) (nGenos Starts : List Int) (hc : S.ncol = T.ncol) (ht1 : 1 ≤ t)
    (ht2 : t ≤ (T.nrow : Int)) (hr : OffsetsInRange S T t values nGenos Starts) (i : Nat)
    (hi : i < S.nrow) :
    ∃ recs r, comp_ind_pairwise S T t values nGenos Starts = Except.ok recs ∧
      recs[i]? = some r ∧
      r.value = (jointLoci S T t i (List.range S.ncol)).foldl
        (fun s j => s + tableAt values
          (lookupOffset nGenos Starts j (S.entry i j) (targetEntry T t j))) 0 ∧
      r.num_loc = ((jointLoci S T t i (List.range S.ncol)).length : Int) :=
  ⟨_, _, comp_ind_pairwise_eq S T t values nGenos Starts (le_of_eq hc) ht1 ht2 hr,
    getElem?_map_range _ S.nrow i hi, rfl, rfl⟩

/-- Witness of C2 on the first scenario of the specification: row `(0, 1)` against `(1, 0)` adds
the entry `[0][1]` of the first block and the entry `[1][0]` of the second one over two loci. -/
theorem reference_value_witness :
    ∃ recs r, comp_ind_pairwise scenarioSource scenarioTarget 1 scenarioValues [2, 2] [0, 4] =
        Except.ok recs ∧
      recs[0]? = some r ∧
      r.value = (jointLoci scenarioSource scenarioTarget 1 0
        (List.range scenarioSource.ncol)).foldl
        (fun s j => s + tableAt scenarioValues
          (lookupOffset [2, 2] [0, 4] j (scenarioSource.entry 0 j)
            (targetEntry scenarioTarget 1 j))) 0 ∧
      r.num_loc = ((jointLoci scenarioSource scenarioTarget 1 0
        (List.range scenarioSource.ncol)).length : Int) :=
  reference_value scenarioSource scenarioTarget 1 scenarioValues [2, 2] [0, 4] (by decide)
    (by decide) (by decide) (by decide) 0 (by decide)

/-- The first scenario of the specification, evaluated: the records are `(1, 2 + 30, 2)` and
`(2, 4, 1)`. -/
theorem scenario_one_value :
    comp_ind_pairwise scenarioSource scenarioTarget 1 scenarioValues [2, 2] [0, 4] =
      Except.ok [{ ind := 1, value := 32, num_loc := 2 }, { ind := 2, value := 4, num_loc := 1 }] := by
  decide

/-- C3 (shape and order). For every valid input the call returns one record for each source row,
in row order, and the record at position `i` (base 0) has `ind = i + 1`: the column `ind` is
`1, 2, ..., S.nrow`. -/
theorem result_shape {V : Type} [Zero V] [Add V] (S T : IntegerMatrix) (t : Int)
    (values : List V) (nGenos Starts : List Int) (hc : S.ncol = T.ncol) (ht1 : 1 ≤ t)
    (ht2 : t ≤ (T.nrow : Int)) (hr : OffsetsInRange S T t values nGenos Starts) :
    ∃ recs, comp_ind_pairwise S T t values nGenos Starts = Except.ok recs ∧
      recs.length = S.nrow ∧
      recs.map (fun r => r.ind) = (List.range S.nrow).map (fun (i : Nat) => (i : Int) + 1) ∧
      ∀ i, i < S.nrow → ∃ r, recs[i]? = some r ∧ r.ind = (i : Int) + 1 := by
  refine ⟨_, comp_ind_pairwise_eq S T t values nGenos Starts (le_of_eq hc) ht1 ht2 hr, ?_, ?_, ?_⟩
  · simp
  · rw [List.map_map]; rfl
  · intro i hi
    exact ⟨_, getElem?_map_range _ S.nrow i hi, rfl⟩

/-- Witness of C3 on the first scenario of the specification. -/
theorem result_shape_witness :
    ∃ recs, comp_ind_pairwise scenarioSource scenarioTarget 1 scenarioValues [2, 2] [0, 4] =
        Except.ok recs ∧
      recs.length = scenarioSource.nrow ∧
      recs.map (fun r => r.ind) = (List.range scenarioSource.nrow).map (fun (i : Nat) => (i : Int) + 1) ∧
      ∀ i, i < scenarioSource.nrow → ∃ r, recs[i]? = some r ∧ r.ind = (i : Int) + 1 :=
  result_shape scenarioSource scenarioTarget 1 scenarioValues [2, 2] [0, 4] (by decide)
    (by decide) (by decide) (by decide)

/-! ## Faults of `comp_ind_pairwise` -/

/-- A loop fails when one of its passes fails whatever the state, every fault being the same. -/
theorem foldlM_fails {α β : Type} (f : β → α → Except Fault β) (e : Fault) (xs : List α) (x : α)
    (hx : x ∈ xs) (hfail : ∀ a, f a x = Except.error e)
    (honly : ∀ a y e2, f a y = Except.error e2 → e2 = e) (a : β) :
    xs.foldlM f a = Except.error e := by
  induction xs generalizing a with
  | nil => exact absurd hx (List.not_mem_nil x)
  | cons y ys ih =>
    rw [List.foldlM_cons]
    cases hfa : f a y with
    | error e2 =>
      rw [honly a y e2 hfa]
      rfl
    | ok b =>
      simp only [bind, Except.bind]
      rcases List.mem_cons.mp hx with h | h
      · subst h
        rw [hfail a] at hfa
        exact Except.noConfusion hfa
      · exact ih h b

theorem foldlM_fault_only {α β : Type} (f : β → α → Except Fault β) (e : Fault)
    (honly : ∀ a y e2, f a y = Except.error e2 → e2 = e) (xs : List α) (a : β) (e2 : Fault)
    (h : xs.foldlM f a = Except.error e2) : e2 = e := by
  induction xs generalizing a with
  | nil => exact Except.noConfusion h
  | cons y ys ih =>
    rw [List.foldlM_cons] at h
    cases hfa : f a y with
    | error e3 =>
      rw [hfa] at h
      have : e3 = e2 := Except.error.inj h
      rw [← this]
      exact honly a y e3 hfa
    | ok b =>
      rw [hfa] at h
      exact ih b h

theorem cell_fault (M : IntegerMatrix) (i j : Int) (e : Fault)
    (h : M.cell i j = Except.error e) : e = Fault.undefinedBehaviour :=
  readVec_fault M.data _ e h

theorem compLocus_fault {V : Type} [Add V] (S T : IntegerMatrix) (t : Int) (values : List V)
    (nGenos Starts : List Int) (i : Nat) (acc : V × Int) (j : Nat) (e : Fault)
    (h : compLocus S T t values nGenos Starts i acc j = Except.error e) :
    e = Fault.undefinedBehaviour := by
  unfold compLocus at h
  cases hT : T.cell (t - 1) (j : Int) with
  | error e1 =>
    simp only [hT, bind, Except.bind] at h
    rw [← Except.error.inj h]; exact cell_fault T _ _ e1 hT
  | ok tG =>
    cases hS : S.cell (i : Int) (j : Int) with
    | error e1 =>
      simp only [hT, hS, bind, Except.bind] at h
      rw [← Except.error.inj h]; exact cell_fault S _ _ e1 hS
    | ok sG =>
      simp only [hT, hS, bind, Except.bind] at h
      split_ifs at h
      · cases h1 : readVec Starts (j : Int) with
        | error e1 =>
          simp only [h1] at h
          rw [← Except.error.inj h]; exact readVec_fault _ _ e1 h1
        | ok st =>
          cases h2 : readVec nGenos (j : Int) with
          | error e1 =>
            simp only [h1, h2] at h
            rw [← Except.error.inj h]; exact readVec_fault _ _ e1 h2
          | ok ng =>
            cases h3 : readVec values (wrapInt (wrapInt (st + wrapInt (ng * sG)) + tG)) with
            | error e1 =>
              simp only [h1, h2, h3] at h
              rw [← Except.error.inj h]; exact readVec_fault _ _ e1 h3
            | ok v =>
              simp only [h1, h2, h3] at h
              exact Except.noConfusion h
      · exact Except.noConfusion h

theorem compLocus_target_fault {V : Type} [Add V] (S T : IntegerMatrix) (t : Int) (values : List V)
    (nGenos Starts : List Int) (i j : Nat)
    (h : T.cell (t - 1) (j : Int) = Except.error Fault.undefinedBehaviour) (acc : V × Int) :
    compLocus S T t values nGenos Starts i acc j = Except.error Fault.undefinedBehaviour := by
  unfold compLocus
  simp only [h, bind, Except.bind]

section CompIndFaults

variable {V : Type} [Zero V] [Add V]

theorem compRow_fault (S T : IntegerMatrix) (t : Int) (values : List V)
    (nGenos Starts : List Int) (out : List (IndRecord V)) (i : Nat) (e : Fault)
    (h : compRow S T t values nGenos Starts out i = Except.error e) :
    e = Fault.undefinedBehaviour := by
  unfold compRow at h
  cases hl : (List.range S.ncol).foldlM (compLocus S T t values nGenos Starts i) ((0 : V), (0 : Int)) with
  | error e1 =>
    simp only [hl, bind, Except.bind] at h
    rw [← Except.error.inj h]
    exact foldlM_fault_only _ _ (compLocus_fault S T t values nGenos Starts i) _ _ e1 hl
  | ok r =>
    simp only [hl, bind, Except.bind] at h
    exact Except.noConfusion h

/-- The routine signals no error: a call that does not return ran into an unchecked subscript
outside the storage. -/
theorem comp_ind_pairwise_fault (S T : IntegerMatrix) (t : Int) (values : List V)
    (nGenos Starts : List Int) (e : Fault)
    (h : comp_ind_pairwise S T t values nGenos Starts = Except.error e) :
    e = Fault.undefinedBehaviour :=
  foldlM_fault_only _ _ (compRow_fault S T t values nGenos Starts) _ _ e h

/-- A source row at which some pass of the locus loop fails, whatever the state, makes the call
undefined. -/
theorem comp_ind_pairwise_undefined (S T : IntegerMatrix) (t : Int) (values : List V)
    (nGenos Starts : List Int) (i j : Nat) (hi : i < S.nrow) (hj : j < S.ncol)
    (hfail : ∀ acc, compLocus S T t values nGenos Starts i acc j =
      Except.error Fault.undefinedBehaviour) :
    comp_ind_pairwise S T t values nGenos Starts = Except.error Fault.undefinedBehaviour := by
  unfold comp_ind_pairwise
  refine foldlM_fails _ _ _ i (List.mem_range.mpr hi) ?_
    (compRow_fault S T t values nGenos Starts) []
  intro out
  unfold compRow
  rw [foldlM_fails (compLocus S T t values nGenos Starts i) Fault.undefinedBehaviour
    (List.range S.ncol) j (List.mem_range.mpr hj) hfail
    (compLocus_fault S T t values nGenos Starts i)]
  rfl

/-- With no locus to scan, or no source row, every record is `(i + 1, 0, 0)`. -/
theorem comp_ind_pairwise_empty (S T : IntegerMatrix) (t : Int) (values : List V)
    (nGenos Starts : List Int) (h : S.nrow = 0 ∨ S.ncol = 0) :
    comp_ind_pairwise S T t values nGenos Starts =
      Except.ok ((List.range S.nrow).map (emptyRecord V)) := by
  unfold comp_ind_pairwise
  rw [foldlM_append_ok (compRow S T t values nGenos Starts) (fun i => [emptyRecord V i])]
  · rw [List.nil_append]
    congr 1
    induction List.range S.nrow with
    | nil => rfl
    | cons x xs ih => rw [List.flatMap_cons, ih]; rfl
  · intro i hi out
    rw [List.mem_range] at hi
    rcases h with h | h
    · omega
    · unfold compRow
      rw [h]
      rfl

end CompIndFaults

/-- Reading row `t - 1` of the target with `t` below `1` leaves the storage at locus `0`. -/
theorem target_cell_below (T : IntegerMatrix) (t : Int) (ht : t < 1) :
    T.cell (t - 1) ((0 : Nat) : Int) = Except.error Fault.undefinedBehaviour := by
  unfold IntegerMatrix.cell
  apply readVec_neg
  simp only [Nat.cast_zero, mul_zero, add_zero]
  omega

/-- Reading row `t - 1` of the target, `t` a row of the target, leaves the storage at every
locus from `T.ncol` on; so does reading a row after the last one at the last locus. -/
theorem target_cell_beyond (T : IntegerMatrix) (t : Int) (j : Nat) (ht : 1 ≤ t)
    (h : T.ncol ≤ j ∨ ((T.nrow : Int) < t ∧ T.ncol ≤ j + 1)) :
    T.cell (t - 1) (j : Int) = Except.error Fault.undefinedBehaviour := by
  unfold IntegerMatrix.cell
  apply readVec_large
  rw [T.dim_ok]
  push_cast
  rcases h with h | ⟨h1, h2⟩
  · have h3 : (T.nrow : Int) * (T.ncol : Int) ≤ (T.nrow : Int) * (j : Int) :=
      Int.mul_le_mul_of_nonneg_left (by exact_mod_cast h) (Int.ofNat_nonneg _)
    omega
  · have h3 : (T.nrow : Int) * (T.ncol : Int) ≤ (T.nrow : Int) * ((j : Int) + 1) :=
      Int.mul_le_mul_of_nonneg_left (by exact_mod_cast h2) (Int.ofNat_nonneg _)
    have h4 : (T.nrow : Int) * ((j : Int) + 1) = (T.nrow : Int) * (j : Int) + (T.nrow : Int) := by
      ring
    omega

/-- C6, the claim as stated fails: with a source of two rows and no column, a target of one row
and no column and `t = 5`, outside `[1, 1]`, the call returns a table and signals no
out-of-range error. -/
theorem target_index_not_checked :
    comp_ind_pairwise twoRowsNoColumn oneRowNoColumn 5 scenarioValues [] [] =
      Except.ok [{ ind := 1, value := 0, num_loc := 0 }, { ind := 2, value := 0, num_loc := 0 }] ∧
    comp_ind_pairwise twoRowsNoColumn oneRowNoColumn 5 scenarioValues [] [] ≠
      Except.error (Fault.raised ErrorKind.IndexOutOfRange) ∧
    ((5 : Int) < 1 ∨ (oneRowNoColumn.nrow : Int) < 5) := by
  decide

/-- C6 as amended: the routine does not check `t` and signals no out-of-range error. For equal
column counts and `t` outside `[1, T.nrow]`, the call returns the records `(i + 1, 0, 0)` when the
source has no row or no column; otherwise the unchecked read of row `t - 1` leaves the storage of
the target (undefined behaviour). -/
theorem target_index_unchecked {V : Type} [Zero V] [Add V] (S T : IntegerMatrix) (t : Int)
    (values : List V) (nGenos Starts : List Int) (hc : S.ncol = T.ncol)
    (ht : t < 1 ∨ (T.nrow : Int) < t) :
    comp_ind_pairwise S T t values nGenos Starts =
      if S.nrow = 0 ∨ S.ncol = 0 then Except.ok ((List.range S.nrow).map (emptyRecord V))
      else Except.error Fault.undefinedBehaviour := by
  by_cases h : S.nrow = 0 ∨ S.ncol = 0
  · rw [if_pos h]
    exact comp_ind_pairwise_empty S T t values nGenos Starts h
  · rw [if_neg h]
    have h0 : 0 < S.nrow := by omega
    have h1 : 0 < S.ncol := by omega
    by_cases hlow : t < 1
    · exact comp_ind_pairwise_undefined S T t values nGenos Starts 0 0 h0 h1
        (compLocus_target_fault S T t values nGenos Starts 0 0 (target_cell_below T t hlow))
    · have hbig : (T.nrow : Int) < t := by omega
      exact comp_ind_pairwise_undefined S T t values nGenos Starts 0 (S.ncol - 1) h0 (by omega)
        (compLocus_target_fault S T t values nGenos Starts 0 (S.ncol - 1)
          (target_cell_beyond T t (S.ncol - 1) (by omega) (Or.inr ⟨hbig, by omega⟩)))

/-- Witness of the amended C6: on the first scenario with `t = 2`, one past the last row of the
target, the call is undefined. -/
theorem target_index_unchecked_witness :
    scenarioSource.ncol = scenarioTarget.ncol ∧
    ((2 : Int) < 1 ∨ (scenarioTarget.nrow : Int) < 2) ∧
    comp_ind_pairwise scenarioSource scenarioTarget 2 scenarioValues [2, 2] [0, 4] =
      if scenarioSource.nrow = 0 ∨ scenarioSource.ncol = 0 then
        Except.ok ((List.range scenarioSource.nrow).map (emptyRecord Int))
      else Except.error Fault.undefinedBehaviour :=
  ⟨by decide, by decide,
    target_index_unchecked scenarioSource scenarioTarget 2 scenarioValues [2, 2] [0, 4]
      (by decide) (by decide)⟩

/-- C7, the claim as stated fails: a source with one column against a target with two columns
returns a table and signals no dimension-mismatch error. -/
theorem column_counts_not_checked :
    singleZero.ncol ≠ oneRowTwoColumns.ncol ∧
    comp_ind_pairwise singleZero oneRowTwoColumns 1 ([5] : List Int) [1] [0] =
      Except.ok [{ ind := 1, value := 5, num_loc := 1 }] ∧
    comp_ind_pairwise singleZero oneRowTwoColumns 1 ([5] : List Int) [1] [0] ≠
      Except.error (Fault.raised ErrorKind.DimensionMismatch) := by
  decide

/-- C7 as amended: the routine does not compare the column counts and signals no
dimension-mismatch error; it scans the `S.ncol` loci of the source. With `t` a row of the target:
when the target has more columns than the source and the computed offsets are in range, the call
returns the reference records computed from the first `S.ncol` columns of the target; when the
target has fewer columns than the source, the call returns the empty table if the source has no
row and otherwise reads outside the storage of the target (undefined behaviour). -/
theorem column_counts_unchecked {V : Type} [Zero V] [Add V] (S T : IntegerMatrix) (t : Int)
    (values : List V) (nGenos Starts : List Int) (ht1 : 1 ≤ t) (ht2 : t ≤ (T.nrow : Int)) :
    (S.ncol < T.ncol → OffsetsInRange S T t values nGenos Starts →
      comp_ind_pairwise S T t values nGenos Starts =
        Except.ok ((List.range S.nrow).map (refRecord S T t values nGenos Starts))) ∧
    (T.ncol < S.ncol →
      comp_ind_pairwise S T t values nGenos Starts =
        if S.nrow = 0 then Except.ok [] else Except.error Fault.undefinedBehaviour) := by
  constructor
  · intro hlt hr
    exact comp_ind_pairwise_eq S T t values nGenos Starts (le_of_lt hlt) ht1 ht2 hr
  · intro hlt
    by_cases h : S.nrow = 0
    · rw [if_pos h, comp_ind_pairwise_empty S T t values nGenos Starts (Or.inl h), h]
      rfl
    · rw [if_neg h]
      exact comp_ind_pairwise_undefined S T t values nGenos Starts 0 T.ncol (by omega) hlt
        (compLocus_target_fault S T t values nGenos Starts 0 T.ncol
          (target_cell_beyond T t T.ncol ht1 (Or.inl (le_refl _))))

/-- Witness of the amended C7: one source column against two target columns; the record is
computed from the first column of the target. -/
theorem column_counts_unchecked_witness :
    (1 : Int) ≤ 1 ∧ (1 : Int) ≤ (oneRowTwoColumns.nrow : Int) ∧
    singleZero.ncol < oneRowTwoColumns.ncol ∧
    OffsetsInRange singleZero oneRowTwoColumns 1 ([5] : List Int) [1] [0] ∧
    comp_ind_pairwise singleZero oneRowTwoColumns 1 ([5] : List Int) [1] [0] =
      Except.ok ((List.range singleZero.nrow).map
        (refRecord singleZero oneRowTwoColumns 1 ([5] : List Int) [1] [0])) :=
  ⟨by decide, by decide, by decide, by decide,
    (column_counts_unchecked singleZero oneRowTwoColumns 1 ([5] : List Int) [1] [0] (by decide)
      (by decide)).1 (by decide) (by decide)⟩

/-- A pass of the locus loop at a jointly non-missing locus whose offset is outside `values`. -/
theorem compLocus_lookup_fault {V : Type} [Add V] (S T : IntegerMatrix) (t : Int)
    (values : List V) (nGenos Starts : List Int) (i j : Nat) (hi : i < S.nrow) (hj : j < S.ncol)
    (hjT : j < T.ncol) (ht1 : 1 ≤ t) (ht2 : t ≤ (T.nrow : Int)) (hT : 0 ≤ targetEntry T t j)
    (hS : 0 ≤ S.entry i j) (h1 : j < Starts.length) (h2 : j < nGenos.length)
    (hoff : offsetAt S T t nGenos Starts i j < 0 ∨
      (values.length : Int) ≤ offsetAt S T t nGenos Starts i j) (acc : V × Int) :
    compLocus S T t values nGenos Starts i acc j = Except.error Fault.undefinedBehaviour := by
  unfold compLocus
  simp only [target_cell_ok T t j ht1 ht2 hjT, cell_ok S i j hi hj, bind, Except.bind, ge_iff_le]
  rw [if_pos ⟨hT, hS⟩]
  simp only [readVec_ok_getD Starts j 0 h1, readVec_ok_getD nGenos j 0 h2]
  have h5 : readVec values (offsetAt S T t nGenos Starts i j) =
      Except.error Fault.undefinedBehaviour := by
    rcases hoff with h | h
    · exact readVec_neg values _ h
    · exact readVec_large values _ h
  unfold offsetAt lookupOffset at h5
  simp only [h5]

theorem wrapInt_of_range (x : Int) (h1 : -2147483648 ≤ x) (h2 : x < 2147483648) :
    wrapInt x = x := by
  unfold wrapInt
  omega

theorem wrapInt_range (x : Int) : -2147483648 ≤ wrapInt x ∧ wrapInt x < 2147483648 := by
  unfold wrapInt
  omega

/-- The 32-bit offset is the exact offset reduced once: the intermediate reductions of the
product and of the first sum do not change the result. -/
theorem lookupOffset_wrap (nGenos Starts : List Int) (j : Nat) (sG tG : Int) :
    lookupOffset nGenos Starts j sG tG = wrapInt (exactOffset nGenos Starts j sG tG) := by
  unfold lookupOffset exactOffset wrapInt
  omega

/-- Without overflow of the total, the 32-bit offset is the exact offset. -/
theorem lookupOffset_exact (nGenos Starts : List Int) (j : Nat) (sG tG : Int)
    (h1 : -2147483648 ≤ exactOffset nGenos Starts j sG tG)
    (h2 : exactOffset nGenos Starts j sG tG < 2147483648) :
    lookupOffset nGenos Starts j sG tG = exactOffset nGenos Starts j sG tG := by
  rw [lookupOffset_wrap, wrapInt_of_range _ h1 h2]

/-- For a table of at most `2^31` entries, exact offsets inside the table are computed offsets
inside the table. -/
theorem offsetsInRange_of_exact {V : Type} (S T : IntegerMatrix) (t : Int) (values : List V)
    (nGenos Starts : List Int) (hlen : values.length ≤ 2147483648)
    (h : ∀ i, i < S.nrow → ∀ j, j < S.ncol → 0 ≤ targetEntry T t j → 0 ≤ S.entry i j →
      j < Starts.length ∧ j < nGenos.length ∧
        0 ≤ exactOffset nGenos Starts j (S.entry i j) (targetEntry T t j) ∧
        exactOffset nGenos Starts j (S.entry i j) (targetEntry T t j) < values.length) :
    OffsetsInRange S T t values nGenos Starts := by
  intro i hi j hj hT hS
  obtain ⟨a, b, c, d⟩ := h i hi j hj hT hS
  have e := lookupOffset_exact nGenos Starts j (S.entry i j) (targetEntry T t j) (by omega)
    (by omega)
  refine ⟨a, b, ?_, ?_⟩
  · unfold offsetAt; rw [e]; exact c
  · unfold offsetAt; rw [e]; exact d

/-- Codes below the number of genotypes and blocks inside a table of at most `2^31` entries keep
every computed offset in range. -/
theorem offsetsInRange_of_blocks {V : Type} (S T : IntegerMatrix) (t : Int) (values : List V)
    (nGenos Starts : List Int) (hlen : values.length ≤ 2147483648)
    (hb : BlocksInRange values nGenos Starts S.ncol)
    (hcodes : CodesBelow S T t nGenos) : OffsetsInRange S T t values nGenos Starts := by
  apply offsetsInRange_of_exact S T t values nGenos Starts hlen
  intro i hi j hj hT hS
  obtain ⟨b1, b2, b3, b4⟩ := hb j hj
  obtain ⟨c1, c2⟩ := hcodes j hj
  have c3 := c2 i hi
  refine ⟨b1, b2, ?_, ?_⟩
  · unfold exactOffset
    have : 0 ≤ nGenos.getD j 0 * S.entry i j := mul_nonneg (by omega) hS
    omega
  · unfold exactOffset
    have h1 : nGenos.getD j 0 * S.entry i j ≤ nGenos.getD j 0 * (nGenos.getD j 0 - 1) :=
      Int.mul_le_mul_of_nonneg_left (by omega) (by omega)
    have h2 : nGenos.getD j 0 * (nGenos.getD j 0 - 1) =
        nGenos.getD j 0 * nGenos.getD j 0 - nGenos.getD j 0 := by ring
    omega

/-- C8, the claim as stated fails: with a table of one entry and the source code `1` the offset
is `1`, outside the table; the call reads there (undefined behaviour) and signals no lookup-range
error. -/
theorem lookup_offset_not_checked :
    offsetAt singleOne singleZero 1 [1] [0] 0 0 = 1 ∧
    comp_ind_pairwise singleOne singleZero 1 ([5] : List Int) [1] [0] =
      Except.error Fault.undefinedBehaviour ∧
    comp_ind_pairwise singleOne singleZero 1 ([5] : List Int) [1] [0] ≠
      Except.error (Fault.raised ErrorKind.IndexOutOfRange) := by
  decide

/-- C8 as amended: the routine does not check the offset. For a call with equal column counts
and `t` a row of the target: when a jointly non-missing locus of some source row yields an
offset, as computed in 32-bit `int` arithmetic, that is negative or at least `length(values)`,
the call reads outside the table (undefined behaviour) and signals no error; when the table has
at most `2^31` entries, every genotype code is below `nGenos[j]` and every block
`Starts[j] .. Starts[j] + nGenos[j]^2 - 1` lies inside `values`, every computed offset is in range
and the call returns the reference records. -/
theorem lookup_offset_unchecked {V : Type} [Zero V] [Add V] (S T : IntegerMatrix) (t : Int)
    (values : List V) (nGenos Starts : List Int) (hc : S.ncol = T.ncol) (ht1 : 1 ≤ t)
    (ht2 : t ≤ (T.nrow : Int)) :
    (∀ i j, i < S.nrow → j < S.ncol → 0 ≤ targetEntry T t j → 0 ≤ S.entry i j →
      j < Starts.length → j < nGenos.length →
      (offsetAt S T t nGenos Starts i j < 0 ∨
        (values.length : Int) ≤ offsetAt S T t nGenos Starts i j) →
      comp_ind_pairwise S T t values nGenos Starts = Except.error Fault.undefinedBehaviour) ∧
    (values.length ≤ 2147483648 → BlocksInRange values nGenos Starts S.ncol →
      CodesBelow S T t nGenos →
      OffsetsInRange S T t values nGenos Starts ∧
      comp_ind_pairwise S T t values nGenos Starts =
        Except.ok ((List.range S.nrow).map (refRecord S T t values nGenos Starts))) := by
  constructor
  · intro i j hi hj hT hS h1 h2 hoff
    exact comp_ind_pairwise_undefined S T t values nGenos Starts i j hi hj
      (compLocus_lookup_fault S T t values nGenos Starts i j hi hj (by omega) ht1 ht2 hT hS h1 h2
        hoff)
  · intro hlen hb hcodes
    have hr := offsetsInRange_of_blocks S T t values nGenos Starts hlen hb hcodes
    exact ⟨hr, comp_ind_pairwise_eq S T t values nGenos Starts (le_of_eq hc) ht1 ht2 hr⟩

/-- Witness of the amended C8: with the source code `1` and a table of one entry the computed
offset `1` is outside the table and the call is undefined; on the first scenario of the
specification the two blocks of four entries lie inside the eight values and the call returns. -/
theorem lookup_offset_unchecked_witness :
    (singleOne.ncol = singleZero.ncol ∧ (1 : Int) ≤ 1 ∧ (1 : Int) ≤ (singleZero.nrow : Int) ∧
      ((([5] : List Int).length : Int) ≤ offsetAt singleOne singleZero 1 [1] [0] 0 0) ∧
      comp_ind_pairwise singleOne singleZero 1 ([5] : List Int) [1] [0] =
        Except.error Fault.undefinedBehaviour) ∧
    (scenarioSource.ncol = scenarioTarget.ncol ∧ (1 : Int) ≤ 1 ∧
      (1 : Int) ≤ (scenarioTarget.nrow : Int) ∧ scenarioValues.length ≤ 2147483648 ∧
      BlocksInRange scenarioValues [2, 2] [0, 4] scenarioSource.ncol ∧
      CodesBelow scenarioSource scenarioTarget 1 [2, 2] ∧
      OffsetsInRange scenarioSource scenarioTarget 1 scenarioValues [2, 2] [0, 4] ∧
      comp_ind_pairwise scenarioSource scenarioTarget 1 scenarioValues [2, 2] [0, 4] =
        Except.ok ((List.range scenarioSource.nrow).map
          (refRecord scenarioSource scenarioTarget 1 scenarioValues [2, 2] [0, 4]))) :=
  ⟨⟨by decide, by decide, by decide, by decide,
      (lookup_offset_unchecked singleOne singleZero 1 ([5] : List Int) [1] [0]
        (by decide) (by decide) (by decide)).1 0 0 (by decide) (by decide) (by decide)
        (by decide) (by decide) (by decide) (Or.inr (by decide))⟩,
    ⟨by decide, by decide, by decide, by decide, by decide, by decide,
      (lookup_offset_unchecked scenarioSource scenarioTarget 1 scenarioValues [2, 2] [0, 4]
        (by decide) (by decide) (by decide)).2 (by decide) (by decide) (by decide)⟩⟩

/-- The offset is a 32-bit value: with the source code `65536` and `nGenos = [65536]` the exact
offset is `2^32`, the computed offset is `0`, and the call reads `values[0]` and returns
`(1, 7, 1)`; with the source code `32768` and `Starts = [-2147483647]` the product leaves `int`
but the computed offset is the exact one, `1`. -/
theorem lookup_offset_wraps :
    exactOffset [65536] [0] 0 65536 0 = 4294967296 ∧
    offsetAt sourceCode65536 singleZero 1 [65536] [0] 0 0 = 0 ∧
    comp_ind_pairwise sourceCode65536 singleZero 1 ([7] : List Int) [65536] [0] =
      Except.ok [{ ind := 1, value := 7, num_loc := 1 }] ∧
    exactOffset [65536] [-2147483647] 0 32768 0 = 1 ∧
    comp_ind_pairwise sourceCode32768 singleZero 1 ([7, 9] : List Int) [65536] [-2147483647] =
      Except.ok [{ ind := 1, value := 9, num_loc := 1 }] := by
  decide

theorem foldl_congr_mem {α β : Type} (f g : β → α → β) (l : List α)
    (h : ∀ x ∈ l, ∀ s, f s x = g s x) (a : β) : l.foldl f a = l.foldl g a := by
  induction l generalizing a with
  | nil => rfl
  | cons x xs ih =>
    rw [List.foldl_cons, List.foldl_cons, h x (List.mem_cons_self x xs) a]
    exact ih (fun y hy => h y (List.mem_cons_of_mem x hy)) _

/-- C10 (missing-data neutrality). Let two valid calls have the same column count and the same
table, and let `i` be a source row of both. If the loci at which source row `i` and the target
row are both non-missing are the same in both calls, and the calls agree on both genotype codes
at those loci, then both calls return and the records of row `i` have the same `value` and the
same `num_loc`: the entries at the other loci do not matter. -/
theorem missing_data_neutral {V : Type} [Zero V] [Add V] (S T S2 T2 : IntegerMatrix)
    (t t2 : Int) (values : List V) (nGenos Starts : List Int)
    (hc : S.ncol = T.ncol) (hc2 : S2.ncol = T2.ncol) (hcc : S.ncol = S2.ncol)
    (ht1 : 1 ≤ t) (ht2 : t ≤ (T.nrow : Int)) (hu1 : 1 ≤ t2) (hu2 : t2 ≤ (T2.nrow : Int))
    (hr : OffsetsInRange S T t values nGenos Starts)
    (hr2 : OffsetsInRange S2 T2 t2 values nGenos Starts)
    (i : Nat) (hi : i < S.nrow) (hi2 : i < S2.nrow)
    (hset : ∀ j, j < S.ncol →
      ((0 ≤ targetEntry T t j ∧ 0 ≤ S.entry i j) ↔
        (0 ≤ targetEntry T2 t2 j ∧ 0 ≤ S2.entry i j)))
    (hagree : ∀ j, j < S.ncol → 0 ≤ targetEntry T t j → 0 ≤ S.entry i j →
      S.entry i j = S2.entry i j ∧ targetEntry T t j = targetEntry T2 t2 j) :
    ∃ recs recs2 r r2,
      comp_ind_pairwise S T t values nGenos Starts = Except.ok recs ∧
      comp_ind_pairwise S2 T2 t2 values nGenos Starts = Except.ok recs2 ∧
      recs[i]? = some r ∧ recs2[i]? = some r2 ∧
      r.value = r2.value ∧ r.num_loc = r2.num_loc := by
  have hloci : jointLoci S T t i (List.range S.ncol) =
      jointLoci S2 T2 t2 i (List.range S2.ncol) := by
    rw [← hcc]
    unfold jointLoci
    apply List.filter_congr
    intro j hj
    rw [List.mem_range] at hj
    exact decide_eq_decide.mpr (hset j hj)
  refine ⟨_, _, _, _,
    comp_ind_pairwise_eq S T t values nGenos Starts (le_of_eq hc) ht1 ht2 hr,
    comp_ind_pairwise_eq S2 T2 t2 values nGenos Starts (le_of_eq hc2) hu1 hu2 hr2,
    getElem?_map_range _ S.nrow i hi, getElem?_map_range _ S2.nrow i hi2, ?_, ?_⟩
  · show refValue S T t values nGenos Starts i = refValue S2 T2 t2 values nGenos Starts i
    unfold refValue
    rw [← hloci]
    apply foldl_congr_mem
    intro j hj s
    unfold jointLoci at hj
    rw [List.mem_filter, List.mem_range, decide_eq_true_eq] at hj
    obtain ⟨a, b⟩ := hagree j hj.1 hj.2.1 hj.2.2
    unfold offsetAt
    rw [a, b]
  · show refCount S T t i = refCount S2 T2 t2 i
    unfold refCount
    rw [hloci]

/-- Witness of C10: row `(0, -1)` against target row `(1, 1)` and row `(0, -5)` against target
row `(1, -3)` are jointly non-missing at locus `0` only, with the same codes there. -/
theorem missing_data_neutral_witness :
    ∃ recs recs2 r r2,
      comp_ind_pairwise neutralSourceA neutralTargetA 1 scenarioValues [2, 2] [0, 4] =
        Except.ok recs ∧
      comp_ind_pairwise neutralSourceB neutralTargetB 1 scenarioValues [2, 2] [0, 4] =
        Except.ok recs2 ∧
      recs[0]? = some r ∧ recs2[0]? = some r2 ∧
      r.value = r2.value ∧ r.num_loc = r2.num_loc :=
  missing_data_neutral neutralSourceA neutralTargetA neutralSourceB neutralTargetB 1 1
    scenarioValues [2, 2] [0, 4] (by decide) (by decide) (by decide) (by decide) (by decide)
    (by decide) (by decide) (by decide) (by decide) 0 (by decide) (by decide) (by decide)
    (by decide)

/-! ## Further claims about `pairwise_geno_id` -/

/-- A record carrying the indices of the pair `(i, j)` is in the result exactly when the loop
body of that pair pushed it. -/
theorem mem_result_iff (S : IntegerMatrix) (m : Int) (i j : Nat) (hij : i < j) (hj : j < S.nrow)
    (r : PairRecord) (h1 : r.ind1 = (i : Int) + 1) (h2 : r.ind2 = (j : Int) + 1) :
    r ∈ (rowPairs S.nrow).filterMap (pushed S m) ↔ pushed S m (i, j) = some r := by
  rw [List.mem_filterMap]
  constructor
  · rintro ⟨⟨a, b⟩, _, hp⟩
    obtain ⟨e1, e2⟩ := pushed_index S m (a, b) r hp
    simp only at e1 e2
    have ha : a = i := by omega
    have hb : b = j := by omega
    subst ha
    subst hb
    exact hp
  · intro hp
    exact ⟨(i, j), (mem_rowPairs S.nrow i j).mpr ⟨hij, hj⟩, hp⟩

/-- The full record of a pair within the bound is in the unpruned scan. -/
theorem fullRecord_mem_unpruned (S : IntegerMatrix) (m : Int) (i j : Nat) (hij : i < j)
    (hj : j < S.nrow) (hle : mismatchCount S i j ≤ m) :
    fullRecord S (i, j) ∈ unprunedScan S m := by
  unfold unprunedScan
  rw [List.mem_filter, List.mem_map]
  exact ⟨⟨(i, j), (mem_rowPairs S.nrow i j).mpr ⟨hij, hj⟩, rfl⟩, by simpa [fullRecord] using hle⟩

/-- C11 (missing-data neutrality of the pair scan). Let two matrices have the same shape and let
`i < j` be rows such that the loci at which both rows are non-missing are the same in both
matrices, and the matrices agree on rows `i` and `j` at those loci. Then, for every bound (in
particular every non-negative one), both calls return and a record of the pair `(i, j)` is in one
result exactly when it is in the other: the pair is emitted for both or for none, with the same
`num_mismatch` and `num_loc`. Entries at loci where a row is missing do not matter. -/
theorem pair_missing_data_neutral (S S2 : IntegerMatrix) (max_miss : Int)
    (hr : S.nrow = S2.nrow) (hc : S.ncol = S2.ncol) (i j : Nat) (hij : i < j) (hj : j < S.nrow)
    (hset : ∀ l, l < S.ncol →
      ((0 ≤ S.entry i l ∧ 0 ≤ S.entry j l) ↔ (0 ≤ S2.entry i l ∧ 0 ≤ S2.entry j l)))
    (hagree : ∀ l, l < S.ncol → 0 ≤ S.entry i l → 0 ≤ S.entry j l →
      S.entry i l = S2.entry i l ∧ S.entry j l = S2.entry j l) :
    ∃ recs recs2, pairwise_geno_id S max_miss = Except.ok recs ∧
      pairwise_geno_id S2 max_miss = Except.ok recs2 ∧
      ∀ r : PairRecord, r.ind1 = (i : Int) + 1 → r.ind2 = (j : Int) + 1 →
        (r ∈ recs ↔ r ∈ recs2) := by
  have hpres : presentLoci S i j (List.range S.ncol) = presentLoci S2 i j (List.range S2.ncol) := by
    rw [← hc]
    unfold presentLoci
    apply List.filter_congr
    intro l hl
    rw [List.mem_range] at hl
    exact decide_eq_decide.mpr (hset l hl)
  have hmis : mismatchLoci S i j (List.range S.ncol) =
      mismatchLoci S2 i j (List.range S2.ncol) := by
    rw [← hc]
    unfold mismatchLoci
    apply List.filter_congr
    intro l hl
    rw [List.mem_range] at hl
    apply decide_eq_decide.mpr
    constructor
    · rintro ⟨hp, hne⟩
      obtain ⟨a, b⟩ := hagree l hl hp.1 hp.2
      exact ⟨(hset l hl).mp hp, by rw [← a, ← b]; exact hne⟩
    · rintro ⟨hp, hne⟩
      have hp1 := (hset l hl).mpr hp
      obtain ⟨a, b⟩ := hagree l hl hp1.1 hp1.2
      exact ⟨hp1, by rw [a, b]; exact hne⟩
  have hpush : pushed S max_miss (i, j) = pushed S2 max_miss (i, j) := by
    rw [pushed_eq S max_miss i j (by omega) hj, pushed_eq S2 max_miss i j (by omega) (by omega)]
    unfold fullRecord mismatchCount nonMissingCount
    rw [hpres, hmis, hc]
  refine ⟨_, _, pairwise_geno_id_eq S max_miss, pairwise_geno_id_eq S2 max_miss, ?_⟩
  intro r h1 h2
  rw [mem_result_iff S max_miss i j hij hj r h1 h2,
    mem_result_iff S2 max_miss i j hij (by omega) r h1 h2, hpush]

/-- Witness of C11: rows `(0, -1)`, `(1, 1)` and rows `(0, -5)`, `(1, 7)` are both non-missing at
locus `0` only and equal there. -/
theorem pair_missing_data_neutral_witness :
    ∃ recs recs2, pairwise_geno_id neutralSourceA 1 = Except.ok recs ∧
      pairwise_geno_id neutralPairB 1 = Except.ok recs2 ∧
      ∀ r : PairRecord, r.ind1 = ((0 : Nat) : Int) + 1 → r.ind2 = ((1 : Nat) : Int) + 1 →
        (r ∈ recs ↔ r ∈ recs2) :=
  pair_missing_data_neutral neutralSourceA neutralPairB 1 (by decide) (by decide) 0 1 (by decide)
    (by decide) (by decide) (by decide)

/-- C13 (zero overlap of a pair). For every matrix, every non-negative bound and every pair of
rows `i < j` without a locus that is non-missing in both (in particular when there is no column),
the call returns and its result contains the record `(i + 1, j + 1, 0, 0)`. -/
theorem zero_overlap_pair (S : IntegerMatrix) (max_miss : Int) (hm : 0 ≤ max_miss) (i j : Nat)
    (hij : i < j) (hj : j < S.nrow)
    (hz : ∀ l, l < S.ncol → ¬ (0 ≤ S.entry i l ∧ 0 ≤ S.entry j l)) :
    ∃ recs, pairwise_geno_id S max_miss = Except.ok recs ∧
      ({ ind1 := (i : Int) + 1, ind2 := (j : Int) + 1, num_mismatch := 0, num_loc := 0 } :
        PairRecord) ∈ recs := by
  have hp : presentLoci S i j (List.range S.ncol) = [] := by
    unfold presentLoci
    rw [List.filter_eq_nil_iff]
    intro l hl
    rw [List.mem_range] at hl
    simpa using hz l hl
  have hmm : mismatchLoci S i j (List.range S.ncol) = [] := by
    unfold mismatchLoci
    rw [List.filter_eq_nil_iff]
    intro l hl
    rw [List.mem_range] at hl
    have := hz l hl
    simp only [decide_eq_true_eq]
    exact fun h => this h.1
  have hrec : fullRecord S (i, j) =
      { ind1 := (i : Int) + 1, ind2 := (j : Int) + 1, num_mismatch := 0, num_loc := 0 } := by
    simp [fullRecord, mismatchCount, nonMissingCount, hp, hmm]
  refine ⟨_, pairwise_geno_id_eq_unpruned S max_miss (Or.inl hm), ?_⟩
  rw [← hrec]
  exact fullRecord_mem_unpruned S max_miss i j hij hj (by simp [mismatchCount, hmm]; exact hm)

/-- Witness of C13: the rows `(0, -1)` and `(-1, 0)` with bound `0`. -/
theorem zero_overlap_pair_witness :
    ∃ recs, pairwise_geno_id disjointRows 0 = Except.ok recs ∧
      ({ ind1 := ((0 : Nat) : Int) + 1, ind2 := ((1 : Nat) : Int) + 1, num_mismatch := 0,
         num_loc := 0 } : PairRecord) ∈ recs :=
  zero_overlap_pair disjointRows 0 (by decide) 0 1 (by decide) (by decide) (by decide)

/-- C17 (monotonicity in the bound). For every matrix and all integers `0 ≤ m ≤ m2` both calls
return, the result for `m` is the result for `m2` filtered by `num_mismatch ≤ m`, and it is a
sub-sequence of the result for `m2` (same records, same relative order). -/
theorem bound_monotone (S : IntegerMatrix) (m m2 : Int) (hm : 0 ≤ m) (hmm : m ≤ m2) :
    ∃ recs recs2, pairwise_geno_id S m = Except.ok recs ∧
      pairwise_geno_id S m2 = Except.ok recs2 ∧
      recs = recs2.filter (fun r => decide (r.num_mismatch ≤ m)) ∧
      recs.Sublist recs2 := by
  have hfil : unprunedScan S m =
      (unprunedScan S m2).filter (fun r => decide (r.num_mismatch ≤ m)) := by
    unfold unprunedScan
    rw [List.filter_filter]
    apply List.filter_congr
    intro r _
    by_cases h : r.num_mismatch ≤ m
    · have h2 : r.num_mismatch ≤ m2 := le_trans h hmm
      simp [h, h2]
    · simp [h]
  refine ⟨_, _, pairwise_geno_id_eq_unpruned S m (Or.inl hm),
    pairwise_geno_id_eq_unpruned S m2 (Or.inl (le_trans hm hmm)), hfil, ?_⟩
  rw [hfil]
  exact List.filter_sublist _

/-- Witness of C17 on the second scenario of the specification with the bounds `0` and `1`. -/
theorem bound_monotone_witness :
    ∃ recs recs2, pairwise_geno_id scenarioB 0 = Except.ok recs ∧
      pairwise_geno_id scenarioB 1 = Except.ok recs2 ∧
      recs = recs2.filter (fun r => decide (r.num_mismatch ≤ 0)) ∧
      recs.Sublist recs2 :=
  bound_monotone scenarioB 0 1 (by decide) (by decide)

/-- C19 (exact duplicates are found). For every matrix, every non-negative bound and every pair
of rows `i < j` that are equal entry by entry, the call returns and its result contains the
record `(i + 1, j + 1, 0, n)` with `n` the number of non-negative entries of row `i`. -/
theorem duplicates_found (S : IntegerMatrix) (max_miss : Int) (hm : 0 ≤ max_miss) (i j : Nat)
    (hij : i < j) (hj : j < S.nrow) (hdup : ∀ l, l < S.ncol → S.entry i l = S.entry j l) :
    ∃ recs, pairwise_geno_id S max_miss = Except.ok recs ∧
      ({ ind1 := (i : Int) + 1, ind2 := (j : Int) + 1, num_mismatch := 0,
         num_loc := (((List.range S.ncol).filter (fun l => decide (0 ≤ S.entry i l))).length :
           Int) } : PairRecord) ∈ recs := by
  have hp : presentLoci S i j (List.range S.ncol) =
      (List.range S.ncol).filter (fun l => decide (0 ≤ S.entry i l)) := by
    unfold presentLoci
    apply List.filter_congr
    intro l hl
    rw [List.mem_range] at hl
    rw [← hdup l hl]
    simp
  have hmm : mismatchLoci S i j (List.range S.ncol) = [] := by
    unfold mismatchLoci
    rw [List.filter_eq_nil_iff]
    intro l hl
    rw [List.mem_range] at hl
    simp only [decide_eq_true_eq]
    exact fun h => h.2 (hdup l hl)
  have hrec : fullRecord S (i, j) =
      { ind1 := (i : Int) + 1, ind2 := (j : Int) + 1, num_mismatch := 0,
        num_loc := (((List.range S.ncol).filter (fun l => decide (0 ≤ S.entry i l))).length :
          Int) } := by
    simp [fullRecord, mismatchCount, nonMissingCount, hp, hmm]
  refine ⟨_, pairwise_geno_id_eq_unpruned S max_miss (Or.inl hm), ?_⟩
  rw [← hrec]
  exact fullRecord_mem_unpruned S max_miss i j hij hj (by simp [mismatchCount, hmm]; exact hm)

/-- Witness of C19: the row `(0, -1, 2)` twice gives the record `(1, 2, 0, 2)`. -/
theorem duplicates_found_witness :
    ∃ recs, pairwise_geno_id duplicateRows 3 = Except.ok recs ∧
      ({ ind1 := ((0 : Nat) : Int) + 1, ind2 := ((1 : Nat) : Int) + 1, num_mismatch := 0,
         num_loc := (((List.range duplicateRows.ncol).filter
           (fun l => decide (0 ≤ duplicateRows.entry 0 l))).length : Int) } : PairRecord) ∈ recs :=
  duplicates_found duplicateRows 3 (by decide) 0 1 (by decide) (by decide) (by decide)

/-- The duplicate rows `(0, -1, 2)`, evaluated: one record `(1, 2, 0, 2)`. -/
theorem duplicates_value :
    pairwise_geno_id duplicateRows 3 =
      Except.ok [{ ind1 := 1, ind2 := 2, num_mismatch := 0, num_loc := 2 }] := by
  decide

/-! ## Further claims about `comp_ind_pairwise` -/

theorem targetEntry_succ (S : IntegerMatrix) (i j : Nat) :
    targetEntry S ((i : Int) + 1) j = S.entry i j := by
  unfold targetEntry
  have h : ((i : Int) + 1 - 1).toNat = i := by omega
  rw [h]

theorem jointLoci_nil (S T : IntegerMatrix) (t : Int) (i : Nat)
    (hz : ∀ j, j < S.ncol → S.entry i j < 0 ∨ targetEntry T t j < 0) :
    jointLoci S T t i (List.range S.ncol) = [] := by
  unfold jointLoci
  rw [List.filter_eq_nil_iff]
  intro j hj
  rw [List.mem_range] at hj
  simp only [decide_eq_true_eq, not_and, not_le]
  intro h
  rcases hz j hj with h2 | h2
  · exact h2
  · omega

/-- C12 (zero overlap of a source row). Let the call have equal column counts and `t` a row of
the target, and let source row `i` be such that at every locus its entry or the entry of the
target row is negative (in particular when there is no locus). Then the pass of the row loop for
row `i` stores `(i + 1, 0, 0)` for every table, also an empty one, so that no table entry is
read; and whenever the offsets computed for the other rows are in range, the call returns and
its record at position `i` is `(i + 1, 0, 0)`. -/
theorem zero_overlap_record {V : Type} [Zero V] [Add V] (S T : IntegerMatrix) (t : Int)
    (hc : S.ncol = T.ncol) (ht1 : 1 ≤ t) (ht2 : t ≤ (T.nrow : Int)) (i : Nat) (hi : i < S.nrow)
    (hz : ∀ j, j < S.ncol → S.entry i j < 0 ∨ targetEntry T t j < 0) :
    (∀ (values : List V) (nGenos Starts : List Int) (out : List (IndRecord V)),
      compRow S T t values nGenos Starts out i =
        Except.ok (out ++ [{ ind := (i : Int) + 1, value := 0, num_loc := 0 }])) ∧
    (∀ (values : List V) (nGenos Starts : List Int),
      OffsetsInRange S T t values nGenos Starts →
      ∃ recs, comp_ind_pairwise S T t values nGenos Starts = Except.ok recs ∧
        recs[i]? = some { ind := (i : Int) + 1, value := 0, num_loc := 0 }) := by
  have hnil := jointLoci_nil S T t i hz
  constructor
  · intro values nGenos Starts out
    unfold compRow
    rw [compLoci_ok S T t values nGenos Starts i hi ht1 ht2 (List.range S.ncol)]
    · rw [hnil]
      rfl
    · intro j hj
      rw [List.mem_range] at hj
      refine ⟨hj, by omega, ?_⟩
      intro h1 h2
      rcases hz j hj with h | h <;> omega
  · intro values nGenos Starts hr
    refine ⟨_, comp_ind_pairwise_eq S T t values nGenos Starts (le_of_eq hc) ht1 ht2 hr, ?_⟩
    rw [getElem?_map_range _ S.nrow i hi]
    unfold refRecord refValue refCount
    rw [hnil]
    rfl

/-- Witness of C12: source row `(0, -1)` against the target row `(-1, 0)`; the pass of the row
loop returns with the empty table, and the call with the table of the first scenario returns the
record `(1, 0, 0)` at position `0`. -/
theorem zero_overlap_record_witness :
    disjointRows.ncol = halfMissingTarget.ncol ∧ (1 : Int) ≤ 1 ∧
    (1 : Int) ≤ (halfMissingTarget.nrow : Int) ∧ 0 < disjointRows.nrow ∧
    (∀ j, j < disjointRows.ncol →
      disjointRows.entry 0 j < 0 ∨ targetEntry halfMissingTarget 1 j < 0) ∧
    compRow disjointRows halfMissingTarget 1 ([] : List Int) [] [] [] 0 =
      Except.ok ([] ++ [{ ind := ((0 : Nat) : Int) + 1, value := 0, num_loc := 0 }]) ∧
    ∃ recs, comp_ind_pairwise disjointRows halfMissingTarget 1 scenarioValues [2, 2] [0, 4] =
        Except.ok recs ∧
      recs[0]? = some { ind := ((0 : Nat) : Int) + 1, value := 0, num_loc := 0 } :=
  ⟨by decide, by decide, by decide, by decide, by decide,
    (zero_overlap_record disjointRows halfMissingTarget 1 (by decide) (by decide) (by decide) 0
      (by decide) (by decide)).1 [] [] [] [],
    (zero_overlap_record disjointRows halfMissingTarget 1 (by decide) (by decide) (by decide) 0
      (by decide) (by decide)).2 scenarioValues [2, 2] [0, 4] (by decide)⟩

/-- C14 (directionality). There are a source and a target with the same column count, a source
row, a target row and a table with an asymmetric block such that the value of the record differs
when the roles of source and target are swapped: with source `(0)`, target `(1)` and the block
`[1, 2, 3, 4]` the value is `2` one way and `3` the other way. -/
theorem directionality :
    ∃ (S T : IntegerMatrix) (i : Nat) (t : Int) (values : List Int) (nGenos Starts : List Int)
      (r r2 : IndRecord Int),
      S.ncol = T.ncol ∧ i < S.nrow ∧ 1 ≤ t ∧ t ≤ (T.nrow : Int) ∧
      tableAt values (lookupOffset nGenos Starts 0 0 1) ≠
        tableAt values (lookupOffset nGenos Starts 0 1 0) ∧
      (∃ recs, comp_ind_pairwise S T t values nGenos Starts = Except.ok recs ∧
        recs[i]? = some r) ∧
      (∃ recs2, comp_ind_pairwise T S ((i : Int) + 1) values nGenos Starts = Except.ok recs2 ∧
        recs2[(t - 1).toNat]? = some r2) ∧
      r.value ≠ r2.value :=
  ⟨singleZero, singleOne, 0, 1, asymmetricValues, [2], [0],
    { ind := 1, value := 2, num_loc := 1 }, { ind := 1, value := 3, num_loc := 1 },
    by decide, by decide, by decide, by decide, by decide,
    ⟨[{ ind := 1, value := 2, num_loc := 1 }], by decide, by decide⟩,
    ⟨[{ ind := 1, value := 3, num_loc := 1 }], by decide, by decide⟩, by decide⟩

/-- C20 (role swap). Let `S` and `T` have the same column count, `i` be a row of `S`, `t` (base
1) a row of `T`, and let both calls `comp_ind_pairwise(S, T, t)` and
`comp_ind_pairwise(T, S, i + 1)` compute offsets in range. Then both calls return, and the record
of source row `i` in the first and the record of source row `t - 1` in the second have the same
`num_loc` for every table; they have the same `value` when every block of the table is symmetric
and every genotype code is below `nGenos[j]`. -/
theorem role_swap {V : Type} [Zero V] [Add V] (S T : IntegerMatrix) (t : Int)
    (values : List V) (nGenos Starts : List Int) (hc : S.ncol = T.ncol) (ht1 : 1 ≤ t)
    (ht2 : t ≤ (T.nrow : Int)) (i : Nat) (hi : i < S.nrow)
    (hr : OffsetsInRange S T t values nGenos Starts)
    (hr2 : OffsetsInRange T S ((i : Int) + 1) values nGenos Starts) :
    ∃ recs recs2 r r2,
      comp_ind_pairwise S T t values nGenos Starts = Except.ok recs ∧
      comp_ind_pairwise T S ((i : Int) + 1) values nGenos Starts = Except.ok recs2 ∧
      recs[i]? = some r ∧ recs2[(t - 1).toNat]? = some r2 ∧
      r.num_loc = r2.num_loc ∧
      (SymmetricBlocks values nGenos Starts S.ncol → CodesBelow S T t nGenos →
        r.value = r2.value) := by
  have hloci : jointLoci S T t i (List.range S.ncol) =
      jointLoci T S ((i : Int) + 1) (t - 1).toNat (List.range T.ncol) := by
    rw [← hc]
    unfold jointLoci
    apply List.filter_congr
    intro j _
    rw [targetEntry_succ]
    apply decide_eq_decide.mpr
    unfold targetEntry
    exact and_comm
  refine ⟨_, _, _, _,
    comp_ind_pairwise_eq S T t values nGenos Starts (le_of_eq hc) ht1 ht2 hr,
    comp_ind_pairwise_eq T S ((i : Int) + 1) values nGenos Starts (le_of_eq hc.symm) (by omega)
      (by omega) hr2,
    getElem?_map_range _ S.nrow i hi, getElem?_map_range _ T.nrow (t - 1).toNat (by omega),
    ?_, ?_⟩
  · show refCount S T t i = refCount T S ((i : Int) + 1) (t - 1).toNat
    unfold refCount
    rw [hloci]
  · intro hsym hcodes
    show refValue S T t values nGenos Starts i =
      refValue T S ((i : Int) + 1) values nGenos Starts (t - 1).toNat
    unfold refValue
    rw [← hloci]
    apply foldl_congr_mem
    intro j hj s
    unfold jointLoci at hj
    rw [List.mem_filter, List.mem_range, decide_eq_true_eq] at hj
    obtain ⟨hjL, hT, hS⟩ := hj
    obtain ⟨c1, c2⟩ := hcodes j hjL
    have c3 := c2 i hi
    have hs := hsym j hjL (S.entry i j).toNat (by omega) (targetEntry T t j).toNat (by omega)
    rw [Int.toNat_of_nonneg hS, Int.toNat_of_nonneg hT] at hs
    unfold offsetAt
    rw [targetEntry_succ]
    show s + tableAt values (lookupOffset nGenos Starts j (S.entry i j) (targetEntry T t j)) =
      s + tableAt values (lookupOffset nGenos Starts j (targetEntry T t j) (S.entry i j))
    rw [hs]

/-- Witness of C20: source `(0)`, target `(1)` and the symmetric block `[1, 2, 2, 4]`. -/
theorem role_swap_witness :
    ∃ recs recs2 r r2,
      comp_ind_pairwise singleZero singleOne 1 symmetricValues [2] [0] = Except.ok recs ∧
      comp_ind_pairwise singleOne singleZero (((0 : Nat) : Int) + 1) symmetricValues [2] [0] =
        Except.ok recs2 ∧
      recs[0]? = some r ∧ recs2[((1 : Int) - 1).toNat]? = some r2 ∧
      r.num_loc = r2.num_loc ∧
      (SymmetricBlocks symmetricValues [2] [0] singleZero.ncol →
        CodesBelow singleZero singleOne 1 [2] → r.value = r2.value) :=
  role_swap singleZero singleOne 1 symmetricValues [2] [0] (by decide) (by decide) (by decide) 0
    (by decide) (by decide) (by decide)

/-- The symmetric example, evaluated: the value is `2` both ways. -/
theorem role_swap_value :
    SymmetricBlocks symmetricValues [2] [0] singleZero.ncol ∧
    CodesBelow singleZero singleOne 1 [2] ∧
    comp_ind_pairwise singleZero singleOne 1 symmetricValues [2] [0] =
      Except.ok [{ ind := 1, value := 2, num_loc := 1 }] ∧
    comp_ind_pairwise singleOne singleZero 1 symmetricValues [2] [0] =
      Except.ok [{ ind := 1, value := 2, num_loc := 1 }] := by
  decide

/-! ## The counter of locus-loop passes -/

theorem scanLociVisits_cons (S : IntegerMatrix) (m : Int) (i j l : Nat) (ls : List Nat)
    (n mm : Int) (v : Nat) (hi : i < S.nrow) (hj : j < S.nrow) (hl : l < S.ncol) :
    scanLociVisits S m i j (l :: ls) n mm v =
      if mm + mismatchAt S i j l > m then
        Except.ok ({ n := n + presentAt S i j l, mm := mm + mismatchAt S i j l, bailed := true },
          v + 1)
      else
        scanLociVisits S m i j ls (n + presentAt S i j l) (mm + mismatchAt S i j l) (v + 1) := by
  simp only [scanLociVisits, cell_ok S i l hi hl, cell_ok S j l hj hl, bind, Except.bind, pure,
    Except.pure, ge_iff_le]
  unfold presentAt mismatchAt
  by_cases hp : 0 ≤ S.entry i l ∧ 0 ≤ S.entry j l
  · simp only [hp, and_self, if_true]
  · simp only [hp, if_false, add_zero]

theorem presentLoci_single (S : IntegerMatrix) (i j l : Nat) :
    ((presentLoci S i j [l]).length : Int) = presentAt S i j l := by
  rw [presentLoci_cons]
  simp [presentLoci]

theorem mismatchLoci_single (S : IntegerMatrix) (i j l : Nat) :
    ((mismatchLoci S i j [l]).length : Int) = mismatchAt S i j l := by
  rw [mismatchLoci_cons]
  simp [mismatchLoci]

/-- The counter does not change the outcome of the locus loop and advances by `visitCount`; the
counters `n` and `mm` of the outcome are the counts over the loci visited; without bailing all
loci are visited; on bailing the last locus visited is the first one at which the running count
of mismatches passes the bound. -/
theorem scanLociVisits_spec (S : IntegerMatrix) (m : Int) (i j : Nat) (hi : i < S.nrow)
    (hj : j < S.nrow) (ls : List Nat) (hls : ∀ l ∈ ls, l < S.ncol) (n mm : Int) (v : Nat) :
    ∃ s, scanLoci S m i j ls n mm = Except.ok s ∧
      scanLociVisits S m i j ls n mm v = Except.ok (s, v + visitCount S m i j ls mm) ∧
      s.n = n + (presentLoci S i j (ls.take (visitCount S m i j ls mm))).length ∧
      s.mm = mm + (mismatchLoci S i j (ls.take (visitCount S m i j ls mm))).length ∧
      (s.bailed = false → visitCount S m i j ls mm = ls.length) ∧
      (s.bailed = true → ∃ k, visitCount S m i j ls mm = k + 1 ∧ k < ls.length ∧
        m < mm + (mismatchLoci S i j (ls.take (k + 1))).length ∧
        ∀ k2, k2 < k → mm + (mismatchLoci S i j (ls.take (k2 + 1))).length ≤ m) := by
  induction ls generalizing n mm v with
  | nil =>
    refine ⟨{ n := n, mm := mm, bailed := false }, rfl, rfl, ?_, ?_, ?_, ?_⟩
    · simp [presentLoci]
    · simp [mismatchLoci]
    · intro _; rfl
    · intro h; exact Bool.noConfusion h
  | cons l ls ih =>
    have hl : l < S.ncol := hls l (List.mem_cons_self l ls)
    have hls2 : ∀ x ∈ ls, x < S.ncol := fun x hx => hls x (List.mem_cons_of_mem l hx)
    rw [scanLoci_cons S m i j l ls n mm hi hj hl, scanLociVisits_cons S m i j l ls n mm v hi hj hl]
    by_cases hb : mm + mismatchAt S i j l > m
    · have hvc : visitCount S m i j (l :: ls) mm = 1 := by
        simp only [visitCount, hb, if_true]
      rw [if_pos hb, if_pos hb, hvc]
      refine ⟨_, rfl, rfl, ?_, ?_, ?_, ?_⟩
      · simp only [List.take_succ_cons, List.take_zero]
        rw [presentLoci_single]
      · simp only [List.take_succ_cons, List.take_zero]
        rw [mismatchLoci_single]
      · intro h; exact Bool.noConfusion h
      · intro _
        refine ⟨0, rfl, Nat.succ_pos _, ?_, ?_⟩
        · simp only [List.take_succ_cons, List.take_zero]
          rw [mismatchLoci_single]
          exact hb
        · intro k2 hk2; exact absurd hk2 (Nat.not_lt_zero k2)
    · have hvc : visitCount S m i j (l :: ls) mm =
          visitCount S m i j ls (mm + mismatchAt S i j l) + 1 := by
        simp only [visitCount, hb, if_false]
      rw [if_neg hb, if_neg hb, hvc]
      obtain ⟨s, hs, hv, hn, hmm, hnb, hbl⟩ :=
        ih hls2 (n + presentAt S i j l) (mm + mismatchAt S i j l) (v + 1)
      refine ⟨s, hs, ?_, ?_, ?_, ?_, ?_⟩
      · rw [hv]
        congr 2
        omega
      · rw [List.take_succ_cons, presentLoci_cons, hn]
        omega
      · rw [List.take_succ_cons, mismatchLoci_cons, hmm]
        omega
      · intro h
        rw [hnb h, List.length_cons]
      · intro h
        obtain ⟨k, hk1, hk2, hk3, hk4⟩ := hbl h
        refine ⟨k + 1, by rw [hk1], by rw [List.length_cons]; omega, ?_, ?_⟩
        · rw [List.take_succ_cons, mismatchLoci_cons]
          omega
        · intro k2 hk
          cases k2 with
          | zero =>
            simp only [List.take_succ_cons, List.take_zero, Nat.zero_add]
            rw [mismatchLoci_single]
            omega
          | succ k3 =>
            rw [List.take_succ_cons, mismatchLoci_cons]
            have := hk4 k3 (by omega)
            omega

theorem runningMismatch_take (S : IntegerMatrix) (i j k L : Nat) (h : k ≤ L) :
    ((mismatchLoci S i j ((List.range L).take k)).length : Int) = runningMismatch S i j k := by
  rw [List.take_range, Nat.min_eq_left h]
  rfl

theorem runningCompared_take (S : IntegerMatrix) (i j k L : Nat) (h : k ≤ L) :
    ((presentLoci S i j ((List.range L).take k)).length : Int) = runningCompared S i j k := by
  rw [List.take_range, Nat.min_eq_left h]
  rfl

theorem runningMismatch_mono (S : IntegerMatrix) (i j k k2 : Nat) (h : k ≤ k2) :
    runningMismatch S i j k ≤ runningMismatch S i j k2 := by
  unfold runningMismatch mismatchLoci
  exact_mod_cast ((List.range_sublist.mpr h).filter _).length_le

theorem runningCompared_mono (S : IntegerMatrix) (i j k k2 : Nat) (h : k ≤ k2) :
    runningCompared S i j k ≤ runningCompared S i j k2 := by
  unfold runningCompared presentLoci
  exact_mod_cast ((List.range_sublist.mpr h).filter _).length_le

theorem runningMismatch_full (S : IntegerMatrix) (i j : Nat) :
    runningMismatch S i j S.ncol = mismatchCount S i j := rfl

/-- The running count over the first `k` loci only depends on the entries of the two rows at
those loci. -/
theorem runningMismatch_congr (S S2 : IntegerMatrix) (i j k : Nat)
    (h : ∀ l, l < k → S2.entry i l = S.entry i l ∧ S2.entry j l = S.entry j l) :
    runningMismatch S2 i j k = runningMismatch S i j k := by
  unfold runningMismatch mismatchLoci
  congr 2
  apply List.filter_congr
  intro l hl
  rw [List.mem_range] at hl
  obtain ⟨a, b⟩ := h l hl
  rw [a, b]

/-- The locus loop of a pair over all the columns, with the counter started at `0`. -/
theorem pair_visits_spec (S : IntegerMatrix) (m : Int) (i j : Nat) (hi : i < S.nrow)
    (hj : j < S.nrow) :
    ∃ s w, scanLoci S m i j (List.range S.ncol) 0 0 = Except.ok s ∧
      scanLociVisits S m i j (List.range S.ncol) 0 0 0 = Except.ok (s, w) ∧
      w = visitCount S m i j (List.range S.ncol) 0 ∧ w ≤ S.ncol ∧
      s.n = runningCompared S i j w ∧ s.mm = runningMismatch S i j w ∧
      (s.bailed = false → w = S.ncol) ∧
      (s.bailed = true → ∃ k, w = k + 1 ∧ k < S.ncol ∧ m < runningMismatch S i j (k + 1) ∧
        ∀ k2, k2 < k → runningMismatch S i j (k2 + 1) ≤ m) := by
  obtain ⟨s, hs, hv, hn, hmm, hnb, hbl⟩ := scanLociVisits_spec S m i j hi hj (List.range S.ncol)
    (fun l hl => List.mem_range.mp hl) 0 0 0
  rw [List.length_range] at hnb hbl
  have hw : visitCount S m i j (List.range S.ncol) 0 ≤ S.ncol := by
    cases hb : s.bailed with
    | false => exact le_of_eq (hnb hb)
    | true =>
      obtain ⟨k, hk1, hk2, _, _⟩ := hbl hb
      omega
  refine ⟨s, _, hs, by simpa using hv, rfl, hw, ?_, ?_, hnb, ?_⟩
  · rw [hn, runningCompared_take S i j _ S.ncol hw, zero_add]
  · rw [hmm, runningMismatch_take S i j _ S.ncol hw, zero_add]
  · intro hb
    obtain ⟨k, hk1, hk2, hk3, hk4⟩ := hbl hb
    refine ⟨k, hk1, hk2, ?_, ?_⟩
    · rw [runningMismatch_take S i j (k + 1) S.ncol (by omega), zero_add] at hk3
      exact hk3
    · intro k2 hk
      have := hk4 k2 hk
      rw [runningMismatch_take S i j (k2 + 1) S.ncol (by omega), zero_add] at this
      exact this

/-- A pair that bails after `k + 1` passes bails after `k + 1` passes in every matrix of the same
shape that agrees with it on the two rows at the loci `0, ..., k`. -/
theorem bail_independent (S S2 : IntegerMatrix) (m : Int) (i j k : Nat) (hi : i < S.nrow)
    (hj : j < S.nrow) (hr : S2.nrow = S.nrow) (hc : S2.ncol = S.ncol) (hk : k < S.ncol)
    (hgt : m < runningMismatch S i j (k + 1))
    (hle : ∀ k2, k2 < k → runningMismatch S i j (k2 + 1) ≤ m)
    (hag : ∀ l, l ≤ k → S2.entry i l = S.entry i l ∧ S2.entry j l = S.entry j l) :
    ∃ s2, scanLociVisits S2 m i j (List.range S2.ncol) 0 0 0 = Except.ok (s2, k + 1) ∧
      s2.bailed = true := by
  obtain ⟨s2, w, hs2, hv, _, hw, _, hmm, hnb, hbl⟩ :=
    pair_visits_spec S2 m i j (by omega) (by omega)
  have hcong : ∀ k2, k2 ≤ k → runningMismatch S2 i j (k2 + 1) = runningMismatch S i j (k2 + 1) :=
    fun k2 h2 => runningMismatch_congr S S2 i j (k2 + 1) (fun l hl => hag l (by omega))
  have hb : s2.bailed = true := by
    cases hb : s2.bailed with
    | true => rfl
    | false =>
      exfalso
      have hwL := hnb hb
      have h1 := runningMismatch_mono S2 i j (k + 1) w (by omega)
      have h2 := hcong k (le_refl k)
      obtain ⟨s3, hs3, hiff, _⟩ := scanLoci_spec S2 m i j (by omega) (by omega)
        (List.range S2.ncol) (fun l hl => List.mem_range.mp hl) 0 0
      have e1 : s3 = s2 := Except.ok.inj (hs3.symm.trans hs2)
      rw [e1] at hiff
      rcases hiff.mp hb with h | h
      · rw [List.range_eq_nil] at h; omega
      · rw [zero_add] at h
        rw [hwL] at h1
        have h3 : runningMismatch S2 i j S2.ncol =
            ((mismatchLoci S2 i j (List.range S2.ncol)).length : Int) := rfl
        omega
  obtain ⟨k3, hk1, hk2, hk3, hk4⟩ := hbl hb
  have hk : k3 = k := by
    rcases Nat.lt_trichotomy k3 k with h | h | h
    · exfalso
      have := hle k3 h
      rw [hcong k3 (le_of_lt h)] at hk3
      omega
    · exact h
    · exfalso
      have := hk4 k h
      rw [hcong k (le_refl k)] at this
      omega
  rw [hk] at hk1
  rw [hk1] at hv
  exact ⟨s2, hv, hb⟩

/-- A loop whose body appends `g x` to the output and adds `c x` to the counter. -/
theorem foldlM_append_count_ok {α β : Type}
    (f : List β × Nat → α → Except Fault (List β × Nat)) (g : α → List β) (c : α → Nat)
    (xs : List α) (h : ∀ x ∈ xs, ∀ st, f st x = Except.ok (st.1 ++ g x, st.2 + c x))
    (st : List β × Nat) :
    xs.foldlM f st = Except.ok (st.1 ++ xs.flatMap g, st.2 + (xs.map c).sum) := by
  induction xs generalizing st with
  | nil => simp [pure, Except.pure]
  | cons x xs ih =>
    rw [List.foldlM_cons, h x (List.mem_cons_self x xs) st]
    have ih2 := ih (fun y hy => h y (List.mem_cons_of_mem x hy)) (st.1 ++ g x, st.2 + c x)
    simp only [bind, Except.bind]
    rw [ih2, List.flatMap_cons, List.append_assoc, List.map_cons, List.sum_cons, Nat.add_assoc]

theorem sum_map_flatMap {α β : Type} (f : α → List β) (c : β → Nat) (l : List α) :
    ((l.flatMap f).map c).sum = (l.map (fun x => ((f x).map c).sum)).sum := by
  induction l with
  | nil => rfl
  | cons x xs ih =>
    rw [List.flatMap_cons, List.map_append, List.sum_append, ih, List.map_cons, List.sum_cons]

theorem scanPairVisits_eq (S : IntegerMatrix) (m : Int) (i j : Nat) (hi : i < S.nrow)
    (hj : j < S.nrow) (st : List PairRecord × Nat) :
    scanPairVisits S m i st j =
      Except.ok (st.1 ++ (pushed S m (i, j)).toList, st.2 + pairVisits S m (i, j)) := by
  obtain ⟨s, hs, hv, _⟩ := scanLociVisits_spec S m i j hi hj (List.range S.ncol)
    (fun l hl => List.mem_range.mp hl) 0 0 st.2
  unfold scanPairVisits pushed pairVisits
  simp only [hs, hv, bind, Except.bind, pure, Except.pure]
  by_cases hb : s.bailed = false
  · rw [if_pos hb, if_pos hb]; rfl
  · rw [if_neg hb, if_neg hb]; simp [Option.toList]

theorem scanRowVisits_eq (S : IntegerMatrix) (m : Int) (i : Nat) (hi : i < S.nrow)
    (st : List PairRecord × Nat) :
    scanRowVisits S m st i = Except.ok
      (st.1 ++ ((List.range' (i + 1) (S.nrow - (i + 1))).map (fun j => (i, j))).filterMap
        (pushed S m),
       st.2 + (((List.range' (i + 1) (S.nrow - (i + 1))).map (fun j => (i, j))).map
        (pairVisits S m)).sum) := by
  unfold scanRowVisits
  rw [foldlM_append_count_ok (scanPairVisits S m i) (fun j => (pushed S m (i, j)).toList)
    (fun j => pairVisits S m (i, j))]
  · rw [flatMap_toList_eq_filterMap (fun j => pushed S m (i, j)), List.filterMap_map,
      List.map_map]
    rfl
  · intro j hj st2
    rw [List.mem_range'_1] at hj
    exact scanPairVisits_eq S m i j hi (by omega) st2

/-- The routine with the counter returns the result of the routine and the sum, over the row
pairs, of the passes of their locus loops. -/
theorem pairwise_geno_id_visits_eq (S : IntegerMatrix) (m : Int) :
    pairwise_geno_id_visits S m =
      Except.ok ((rowPairs S.nrow).filterMap (pushed S m),
        ((rowPairs S.nrow).map (pairVisits S m)).sum) := by
  unfold pairwise_geno_id_visits
  rw [foldlM_append_count_ok (scanRowVisits S m)
    (fun i => ((List.range' (i + 1) (S.nrow - (i + 1))).map (fun j => (i, j))).filterMap
      (pushed S m))
    (fun i => (((List.range' (i + 1) (S.nrow - (i + 1))).map (fun j => (i, j))).map
      (pairVisits S m)).sum)]
  · rw [List.nil_append, Nat.zero_add, rowPairs, filterMap_flatMap_eq, sum_map_flatMap]
  · intro i hi st
    exact scanRowVisits_eq S m i (List.mem_range.mp hi) st

theorem sum_range_succ_sub (n : Nat) :
    2 * ((List.range n).map (fun i => n - (i + 1))).sum = n * (n - 1) := by
  induction n with
  | zero => rfl
  | succ n ih =>
    have h : (List.range (n + 1)).map (fun i => n + 1 - (i + 1)) =
        (List.range n).map (fun i => (n - (i + 1)) + 1) ++ [0] := by
      rw [List.range_succ, List.map_append]
      congr 1
      · apply List.map_congr_left
        intro i hi
        rw [List.mem_range] at hi
        omega
      · simp
    have h2 : ∀ l : List Nat, (l.map (fun i => (n - (i + 1)) + 1)).sum =
        (l.map (fun i => n - (i + 1))).sum + l.length := by
      intro l
      induction l with
      | nil => rfl
      | cons x xs ihx =>
        simp only [List.map_cons, List.sum_cons, List.length_cons, ihx]
        omega
    rw [h, List.sum_append, h2, List.length_range]
    simp only [List.sum_cons, List.sum_nil, Nat.add_zero, Nat.add_sub_cancel]
    cases n with
    | zero => rfl
    | succ k =>
      rw [Nat.mul_add, ih]
      simp only [Nat.add_sub_cancel]
      ring

theorem length_rowPairs (n : Nat) : (rowPairs n).length = n * (n - 1) / 2 := by
  have h : (rowPairs n).length = ((List.range n).map (fun i => n - (i + 1))).sum := by
    unfold rowPairs
    rw [List.length_flatMap]
    congr 1
    apply List.map_congr_left
    intro i _
    simp
  rw [h, ← sum_range_succ_sub n]
  omega

/-- C15 (monotone running counts). For every matrix, every pair of rows and every locus `k`, the
number of mismatches among the first `k` loci is at most the number among the first `k + 1` loci,
and likewise for the number of compared loci; a bound passed by the running count after locus
`k` is passed by the full-scan count. For the inner loop: it returns with `mm` equal to the
running count over the loci it visited, and when it bails that count, hence the full-scan count,
is above `max_miss`. -/
theorem running_count_monotone (S : IntegerMatrix) (i j k : Nat) (hi : i < S.nrow)
    (hj : j < S.nrow) (hk : k < S.ncol) :
    runningMismatch S i j k ≤ runningMismatch S i j (k + 1) ∧
    runningCompared S i j k ≤ runningCompared S i j (k + 1) ∧
    (∀ max_miss : Int, max_miss < runningMismatch S i j (k + 1) →
      max_miss < mismatchCount S i j) ∧
    (∀ max_miss : Int, ∃ s w, scanLoci S max_miss i j (List.range S.ncol) 0 0 = Except.ok s ∧
      w ≤ S.ncol ∧ s.mm = runningMismatch S i j w ∧
      (s.bailed = true → max_miss < s.mm ∧ max_miss < mismatchCount S i j)) := by
  refine ⟨runningMismatch_mono S i j k (k + 1) (Nat.le_succ k),
    runningCompared_mono S i j k (k + 1) (Nat.le_succ k), ?_, ?_⟩
  · intro m hm
    have h := runningMismatch_mono S i j (k + 1) S.ncol (by omega)
    rw [runningMismatch_full] at h
    omega
  · intro m
    obtain ⟨s, w, hs, _, _, hw, _, hmm, _, hbl⟩ := pair_visits_spec S m i j hi hj
    refine ⟨s, w, hs, hw, hmm, ?_⟩
    intro hb
    obtain ⟨k3, hk1, hk2, hk3, _⟩ := hbl hb
    have h := runningMismatch_mono S i j (k3 + 1) S.ncol (by omega)
    rw [runningMismatch_full] at h
    rw [hmm, hk1]
    constructor <;> omega

/-- Witness of C15 on the second scenario of the specification, rows `(0,0,0)` and `(0,1,1)`,
locus `1`. -/
theorem running_count_monotone_witness :
    runningMismatch scenarioB 0 2 1 ≤ runningMismatch scenarioB 0 2 (1 + 1) ∧
    runningCompared scenarioB 0 2 1 ≤ runningCompared scenarioB 0 2 (1 + 1) ∧
    (∀ max_miss : Int, max_miss < runningMismatch scenarioB 0 2 (1 + 1) →
      max_miss < mismatchCount scenarioB 0 2) ∧
    (∀ max_miss : Int, ∃ s w,
      scanLoci scenarioB max_miss 0 2 (List.range scenarioB.ncol) 0 0 = Except.ok s ∧
      w ≤ scenarioB.ncol ∧ s.mm = runningMismatch scenarioB 0 2 w ∧
      (s.bailed = true → max_miss < s.mm ∧ max_miss < mismatchCount scenarioB 0 2)) :=
  running_count_monotone scenarioB 0 2 1 (by decide) (by decide) (by decide)

/-- The first locus decides: with bound `0` and a first locus that is non-missing in both rows
and differs, the locus loop makes one pass. -/
theorem pairVisits_first_locus (S : IntegerMatrix) (i j : Nat) (hc : 0 < S.ncol)
    (h1 : 0 ≤ S.entry i 0) (h2 : 0 ≤ S.entry j 0) (hne : S.entry i 0 ≠ S.entry j 0) :
    pairVisits S 0 (i, j) = 1 := by
  unfold pairVisits
  obtain ⟨L, hL⟩ : ∃ L, S.ncol = L + 1 := ⟨S.ncol - 1, by omega⟩
  rw [hL, List.range_succ_eq_map]
  have hm : mismatchAt S i j 0 = 1 := by
    unfold mismatchAt
    rw [if_pos ⟨h1, h2⟩, if_pos hne]
  simp only [visitCount, hm]
  rfl

/-- C16 (locus-visit count). For every matrix and every bound (in particular every non-negative
one): for each pair `i < j` the inner loop makes `L` passes when the pair is accepted and
otherwise `k + 1` passes, `k` being the smallest locus index at which the running count of
mismatches over the loci `0..k` is above `max_miss`, and it then bails after `k + 1` passes in
every matrix of the same shape that agrees on the two rows at the loci `0..k`; with bound `0` and
a first locus that is non-missing in both rows and differs there is exactly one pass. The counter
does not change the result, and when every pair differs at the first locus the call with bound
`0` makes `rows * (rows - 1) / 2` passes in total and returns no record. -/
theorem locus_visit_count (S : IntegerMatrix) (max_miss : Int) :
    (∃ recs total, pairwise_geno_id_visits S max_miss = Except.ok (recs, total) ∧
      pairwise_geno_id S max_miss = Except.ok recs) ∧
    (∀ i j, i < j → j < S.nrow →
      ∃ s w, scanLociVisits S max_miss i j (List.range S.ncol) 0 0 0 = Except.ok (s, w) ∧
        scanLoci S max_miss i j (List.range S.ncol) 0 0 = Except.ok s ∧
        (s.bailed = false → w = S.ncol) ∧
        (s.bailed = true → ∃ k, w = k + 1 ∧ k < S.ncol ∧
          max_miss < runningMismatch S i j (k + 1) ∧
          (∀ k2, k2 < k → runningMismatch S i j (k2 + 1) ≤ max_miss) ∧
          ∀ S2 : IntegerMatrix, S2.nrow = S.nrow → S2.ncol = S.ncol →
            (∀ l, l ≤ k → S2.entry i l = S.entry i l ∧ S2.entry j l = S.entry j l) →
            ∃ s2, scanLociVisits S2 max_miss i j (List.range S2.ncol) 0 0 0 =
                Except.ok (s2, k + 1) ∧ s2.bailed = true) ∧
        (max_miss = 0 → 0 < S.ncol → 0 ≤ S.entry i 0 → 0 ≤ S.entry j 0 →
          S.entry i 0 ≠ S.entry j 0 → w = 1 ∧ s.bailed = true)) ∧
    (max_miss = 0 → 0 < S.ncol →
      (∀ i j, i < j → j < S.nrow →
        0 ≤ S.entry i 0 ∧ 0 ≤ S.entry j 0 ∧ S.entry i 0 ≠ S.entry j 0) →
      pairwise_geno_id_visits S max_miss = Except.ok ([], S.nrow * (S.nrow - 1) / 2)) := by
  refine ⟨⟨_, _, pairwise_geno_id_visits_eq S max_miss, pairwise_geno_id_eq S max_miss⟩, ?_, ?_⟩
  · intro i j hij hj
    have hi : i < S.nrow := by omega
    obtain ⟨s, w, hs, hv, hw, hwL, _, _, hnb, hbl⟩ := pair_visits_spec S max_miss i j hi hj
    refine ⟨s, w, hv, hs, hnb, ?_, ?_⟩
    · intro hb
      obtain ⟨k, hk1, hk2, hk3, hk4⟩ := hbl hb
      refine ⟨k, hk1, hk2, hk3, hk4, ?_⟩
      intro S2 hr hc hag
      exact bail_independent S S2 max_miss i j k hi hj hr hc hk2 hk3 hk4 hag
    · intro hm hc h1 h2 hne
      subst hm
      have hw1 : w = 1 := by
        rw [hw]
        exact pairVisits_first_locus S i j hc h1 h2 hne
      refine ⟨hw1, ?_⟩
      cases hb : s.bailed with
      | true => rfl
      | false =>
        exfalso
        obtain ⟨s3, hs3, hiff, _⟩ := scanLoci_spec S 0 i j hi hj (List.range S.ncol)
          (fun l hl => List.mem_range.mp hl) 0 0
        have e1 : s3 = s := Except.ok.inj (hs3.symm.trans hs)
        rw [e1] at hiff
        rcases hiff.mp hb with h | h
        · rw [List.range_eq_nil] at h; omega
        · have hrun : (0 : Int) < runningMismatch S i j 1 := by
            unfold runningMismatch
            rw [show List.range 1 = [0] from rfl, mismatchLoci_single]
            unfold mismatchAt
            rw [if_pos ⟨h1, h2⟩, if_pos hne]
            decide
          have hmono := runningMismatch_mono S i j 1 S.ncol hc
          have h3 : runningMismatch S i j S.ncol =
              ((mismatchLoci S i j (List.range S.ncol)).length : Int) := rfl
          omega
  · intro hm hc hall
    subst hm
    rw [pairwise_geno_id_visits_eq]
    have hvis : (rowPairs S.nrow).map (pairVisits S 0) = (rowPairs S.nrow).map (fun _ => 1) := by
      apply List.map_congr_left
      rintro ⟨i, j⟩ hp
      rw [mem_rowPairs] at hp
      obtain ⟨a, b, c⟩ := hall i j hp.1 hp.2
      exact pairVisits_first_locus S i j hc a b c
    have hnone : (rowPairs S.nrow).filterMap (pushed S 0) = [] := by
      rw [List.filterMap_eq_nil_iff]
      rintro ⟨i, j⟩ hp
      rw [mem_rowPairs] at hp
      obtain ⟨a, b, c⟩ := hall i j hp.1 hp.2
      rw [pushed_eq S 0 i j (by omega) hp.2]
      have hrun : (0 : Int) < runningMismatch S i j 1 := by
        unfold runningMismatch
        rw [show List.range 1 = [0] from rfl, mismatchLoci_single]
        unfold mismatchAt
        rw [if_pos ⟨a, b⟩, if_pos c]
        decide
      have hmono := runningMismatch_mono S i j 1 S.ncol hc
      rw [runningMismatch_full] at hmono
      rw [if_neg]
      omega
    rw [hvis, hnone]
    congr 2
    rw [← length_rowPairs]
    simp

/-! ## Locus-order independence -/

theorem columnsData_getD (S : IntegerMatrix) (σ : List Nat) (r c : Nat) (hr : r < S.nrow)
    (hc : c < σ.length) :
    (columnsData S σ).getD (r + S.nrow * c) 0 = S.entry r (σ.getD c 0) := by
  induction σ generalizing c with
  | nil => exact absurd hc (Nat.not_lt_zero c)
  | cons x xs ih =>
    unfold columnsData
    rw [List.flatMap_cons]
    have hlen : ((List.range S.nrow).map (fun r => S.entry r x)).length = S.nrow := by simp
    cases c with
    | zero =>
      rw [Nat.mul_zero, Nat.add_zero, List.getD_append _ _ _ _ (by rw [hlen]; exact hr)]
      simp [List.getD_eq_getElem?_getD, List.getElem?_range hr]
    | succ c2 =>
      rw [List.getD_append_right _ _ _ _ (by rw [hlen]; rw [Nat.mul_succ]; omega), hlen]
      have e : r + S.nrow * (c2 + 1) - S.nrow = r + S.nrow * c2 := by
        rw [Nat.mul_succ]; omega
      rw [e]
      have hc2 : c2 < xs.length := by
        rw [List.length_cons] at hc; omega
      have := ih c2 hc2
      unfold columnsData at this
      rw [this]
      simp

theorem selectColumns_entry (S : IntegerMatrix) (σ : List Nat) (r c : Nat) (hr : r < S.nrow)
    (hc : c < σ.length) : (selectColumns S σ).entry r c = S.entry r (σ.getD c 0) :=
  columnsData_getD S σ r c hr hc

theorem map_getD_range (σ : List Nat) :
    (List.range σ.length).map (fun c => σ.getD c 0) = σ := by
  apply List.ext_getElem
  · simp
  · intro n h1 h2
    simp [List.getD_eq_getElem?_getD, List.getElem?_eq_getElem h2]

/-- A filter over the loci of the matrix with selected columns has as many members as the filter
over the selected columns of the original matrix. -/
theorem length_filter_selectColumns (S : IntegerMatrix) (σ : List Nat) (i j : Nat)
    (hi : i < S.nrow) (hj : j < S.nrow) (p : Int → Int → Bool) :
    ((List.range σ.length).filter
      (fun l => p ((selectColumns S σ).entry i l) ((selectColumns S σ).entry j l))).length =
    (σ.filter (fun l => p (S.entry i l) (S.entry j l))).length := by
  have h1 : (List.range σ.length).filter
      (fun l => p ((selectColumns S σ).entry i l) ((selectColumns S σ).entry j l)) =
      (List.range σ.length).filter
        ((fun l => p (S.entry i l) (S.entry j l)) ∘ (fun c => σ.getD c 0)) := by
    apply List.filter_congr
    intro l hl
    rw [List.mem_range] at hl
    simp only [Function.comp]
    rw [selectColumns_entry S σ i l hi hl, selectColumns_entry S σ j l hj hl]
  rw [h1]
  have h2 := List.filter_map (p := fun l => p (S.entry i l) (S.entry j l))
    (fun c => σ.getD c 0) (List.range σ.length)
  rw [map_getD_range] at h2
  rw [h2, List.length_map]

theorem fullRecord_selectColumns (S : IntegerMatrix) (σ : List Nat)
    (hσ : σ.Perm (List.range S.ncol)) (i j : Nat) (hi : i < S.nrow) (hj : j < S.nrow) :
    fullRecord (selectColumns S σ) (i, j) = fullRecord S (i, j) := by
  have hm : mismatchCount (selectColumns S σ) i j = mismatchCount S i j := by
    unfold mismatchCount mismatchLoci
    have h := length_filter_selectColumns S σ i j hi hj
      (fun a b => decide ((0 ≤ a ∧ 0 ≤ b) ∧ a ≠ b))
    have h2 := (hσ.filter (fun l => decide ((0 ≤ S.entry i l ∧ 0 ≤ S.entry j l) ∧
      S.entry i l ≠ S.entry j l))).length_eq
    show ((List.filter _ (List.range σ.length)).length : Int) = _
    rw [h, h2]
  have hn : nonMissingCount (selectColumns S σ) i j = nonMissingCount S i j := by
    unfold nonMissingCount presentLoci
    have h := length_filter_selectColumns S σ i j hi hj (fun a b => decide (0 ≤ a ∧ 0 ≤ b))
    have h2 := (hσ.filter (fun l => decide (0 ≤ S.entry i l ∧ 0 ≤ S.entry j l))).length_eq
    show ((List.filter _ (List.range σ.length)).length : Int) = _
    rw [h, h2]
  unfold fullRecord
  rw [hm, hn]

/-- C18 (locus-order independence). For every matrix, every non-negative bound and every
permutation `σ` of its columns, the call on the matrix with permuted columns returns the same
sequence of records as the call on the matrix itself. -/
theorem locus_order_independent (S : IntegerMatrix) (max_miss : Int) (hm : 0 ≤ max_miss)
    (σ : List Nat) (hσ : σ.Perm (List.range S.ncol)) :
    ∃ recs, pairwise_geno_id S max_miss = Except.ok recs ∧
      pairwise_geno_id (selectColumns S σ) max_miss = Except.ok recs := by
  refine ⟨_, pairwise_geno_id_eq_unpruned S max_miss (Or.inl hm), ?_⟩
  rw [pairwise_geno_id_eq_unpruned (selectColumns S σ) max_miss (Or.inl hm)]
  congr 1
  unfold unprunedScan
  congr 1
  show (rowPairs S.nrow).map (fullRecord (selectColumns S σ)) = _
  apply List.map_congr_left
  rintro ⟨i, j⟩ hp
  rw [mem_rowPairs] at hp
  exact fullRecord_selectColumns S σ hσ i j (by omega) hp.2

/-- Witness of C18: the second scenario of the specification with its columns in the order
`1, 2, 0`, where the pair of rows `(0,0,0)`, `(0,1,1)` bails after two passes instead of
three. -/
theorem locus_order_independent_witness :
    (0 : Int) ≤ 1 ∧ [1, 2, 0].Perm (List.range scenarioB.ncol) ∧
    (selectColumns scenarioB [1, 2, 0]).data = [0, 0, 1, 0, 1, 1, 0, 0, 0] ∧
    pairVisits scenarioB 1 (0, 2) = 3 ∧
    pairVisits (selectColumns scenarioB [1, 2, 0]) 1 (0, 2) = 2 ∧
    ∃ recs, pairwise_geno_id scenarioB 1 = Except.ok recs ∧
      pairwise_geno_id (selectColumns scenarioB [1, 2, 0]) 1 = Except.ok recs :=
  ⟨by decide, by decide, by decide, by decide, by decide,
    locus_order_independent scenarioB 1 (by decide) [1, 2, 0] (by decide)⟩

/-- The counter, evaluated: three rows that differ pairwise at the first locus cost `3` passes
for `3` pairs of `2` loci with bound `0`; the second scenario of the specification costs `7`
passes with bound `0` and `9` with bound `1`. -/
theorem visits_examples :
    pairwise_geno_id_visits distinctFirstLocus 0 = Except.ok ([], 3) ∧
    pairwise_geno_id_visits scenarioB 0 = Except.ok ([], 7) ∧
    pairwise_geno_id_visits scenarioB 1 =
      Except.ok ([{ ind1 := 1, ind2 := 2, num_mismatch := 1, num_loc := 3 },
                  { ind1 := 2, ind2 := 3, num_mismatch := 1, num_loc := 3 }], 9) := by
  decide

end PairwiseComps
